import Mathlib

/-
  Shallow embedding of the c-core-utils growable containers
  (src/stack.h, src/queue.h, src/deque.h).

  Each container couples a fixed-size inline buffer with an optionally
  heap-allocated active buffer.  The C pointer comparison
  `values != inline_buffer` is modelled by the boolean flag `in_heap`;
  the inline array and the heap allocation are kept as separate lists and
  the "active buffer" is selected by that flag.  The allocator triple is
  modelled by a boolean `allocOk` telling whether the single
  `alloc_fn`/`realloc_fn` call made by a resize succeeds; a fresh or
  reallocated-into region carries `default` in its uninitialised slots.
  Unsigned `len_type` arithmetic is Nat arithmetic: on every state
  satisfying the representation invariant proved below no expression of
  the C code exceeds `2 ^ w - 1` except the guarded product
  `size * growth_factor`, which is the one place the embedding keeps an
  explicit `% 2 ^ w`.
-/

set_option linter.unusedVariables false

/-- Configuration fixed per container type at definition time: the inline
buffer size `init_size`, the `growth_factor`, and the bit width `w` of the
unsigned C integer `len_type` used for lengths and sizes. -/
structure Cfg where
  init_size : Nat
  growth_factor : Nat
  w : Nat

/-- Maximum representable value of the length type, i.e. `(len_type)(-1)` in C. -/
def Cfg.lenMax (c : Cfg) : Nat := 2 ^ c.w - 1

/-- The static assertions checked by the DEFINE/GENERATE macros
(`1 < init_size < 256`, `1 < growth_factor < 32`, both powers of two),
plus the C guarantee that an unsigned integer type has at least 8 bits. -/
def Cfg.wf (c : Cfg) : Prop :=
  1 < c.init_size ∧ c.init_size < 256 ∧ (∃ k, c.init_size = 2 ^ k) ∧
  1 < c.growth_factor ∧ c.growth_factor < 32 ∧ (∃ k, c.growth_factor = 2 ^ k) ∧
  8 ≤ c.w

/-- MEMORY_COPY of the element run `src` into `dst` starting at offset `off`. -/
def memCopy {α : Type} (dst : List α) (off : Nat) (src : List α) : List α :=
  dst.take off ++ src ++ dst.drop (off + src.length)

/-- State of `type##_queue_s`: the embedded inline array, the current heap
allocation (meaningful when `in_heap`), the pointer-identity flag for
`values`, and the `head`/`len`/`size` fields. -/
structure QueueS (α : Type) where
  inline_buffer : List α
  heap_buffer : List α
  in_heap : Bool
  head : Nat
  len : Nat
  size : Nat

/-- The buffer `queue->values` currently points at. -/
def QueueS.values {α : Type} (q : QueueS α) : List α :=
  if q.in_heap then q.heap_buffer else q.inline_buffer

/-- A write `queue->values[i] = v` through the active buffer pointer. -/
def QueueS.store {α : Type} (q : QueueS α) (i : Nat) (v : α) : QueueS α :=
  if q.in_heap then { q with heap_buffer := q.heap_buffer.set i v }
  else { q with inline_buffer := q.inline_buffer.set i v }

/-- `type##_queue_init`. -/
def queue_init {α : Type} (c : Cfg) (q : QueueS α) : QueueS α :=
  { q with in_heap := false, head := 0, len := 0, size := c.init_size }

/-- `type##_queue_empty`. -/
def queue_empty {α : Type} (q : QueueS α) : Bool := q.len == 0

/-- `type##_queue_full`. -/
def queue_full {α : Type} (q : QueueS α) : Bool := q.len == q.size

/-- `type##_queue_resize`.  `allocOk` is the outcome of the single
`realloc_fn`/`alloc_fn` call the function makes. -/
def queue_resize {α : Type} [Inhabited α] (c : Cfg) (allocOk : Bool)
    (q : QueueS α) : Bool × QueueS α :=
  if c.lenMax / c.growth_factor < q.size then (false, q) else
  let new_size := q.size * c.growth_factor % 2 ^ c.w
  let not_wrapped := decide (q.head + q.len ≤ q.size)
  if not_wrapped && q.in_heap then
    if allocOk then
      (true, { q with
        heap_buffer := q.heap_buffer ++ List.replicate (new_size - q.size) default,
        size := new_size })
    else (false, q)
  else
    if allocOk then
      let fresh : List α := List.replicate new_size default
      let tmp :=
        if not_wrapped then
          memCopy fresh 0 (q.values.take q.len)
        else
          let first_chunk := q.size - q.head
          memCopy (memCopy fresh 0 ((q.values.drop q.head).take first_chunk))
            first_chunk (q.values.take q.head)
      (true, { q with heap_buffer := tmp, in_heap := true, size := new_size,
                      head := if not_wrapped then q.head else 0 })
    else (false, q)

/-- `type##_queue_clear`: resets both `len` and `head`. -/
def queue_clear {α : Type} (q : QueueS α) : QueueS α :=
  { q with len := 0, head := 0 }

/-- `type##_queue_delete`: clear, then release the heap buffer (if any) and
point `values` back at the inline buffer with the initial size. -/
def queue_delete {α : Type} (c : Cfg) (q : QueueS α) : QueueS α :=
  let q1 := queue_clear q
  if q1.in_heap then { q1 with in_heap := false, size := c.init_size } else q1

/-- `type##_queue_enque`. -/
def queue_enque {α : Type} [Inhabited α] (c : Cfg) (allocOk : Bool)
    (q : QueueS α) (v : α) : Bool × QueueS α :=
  match (if queue_full q then queue_resize c allocOk q else (true, q)) with
  | (false, q1) => (false, q1)
  | (true, q1) =>
    let q2 := QueueS.store q1 ((q1.head + q1.len) &&& (q1.size - 1)) v
    (true, { q2 with len := q2.len + 1 })

/-- `type##_queue_deque`. -/
def queue_deque {α : Type} (q : QueueS α) : Bool × QueueS α :=
  if queue_empty q then (false, q)
  else (true, { q with head := (q.head + 1) &&& (q.size - 1), len := q.len - 1 })

/-- `type##_queue_peek` (precondition non-empty is a C assert). -/
def queue_peek {α : Type} [Inhabited α] (q : QueueS α) : α :=
  q.values.getD q.head default

/-- `type##_queue_reverse`: symmetric masked swaps over the live elements. -/
def queue_reverse {α : Type} [Inhabited α] (q : QueueS α) : QueueS α :=
  if q.len < 2 then q else
  let hd := q.head
  let tl := q.head + q.len - 1
  let mask := q.size - 1
  (List.range (q.len / 2)).foldl
    (fun s i =>
      let x := s.values.getD ((hd + i) &&& mask) default
      let y := s.values.getD ((tl - i) &&& mask) default
      QueueS.store (QueueS.store s ((hd + i) &&& mask) y) ((tl - i) &&& mask) x) q

/-- Logical element sequence of a queue: element `i` is read at
`values[(head + i) AND (size - 1)]` for `i < len`. -/
def QueueS.seq {α : Type} [Inhabited α] (q : QueueS α) : List α :=
  (List.range q.len).map fun i => q.values.getD ((q.head + i) &&& (q.size - 1)) default

/-- Representation invariant of a queue state (§3 of the spec plus the
structural facts about the two buffers needed to re-establish it). -/
structure QueueInv {α : Type} (c : Cfg) (q : QueueS α) : Prop where
  size_pow : ∃ k, q.size = 2 ^ k
  size_lb : c.init_size ≤ q.size
  size_ub : q.size ≤ c.lenMax
  len_le : q.len ≤ q.size
  head_lt : q.head < q.size
  inline_len : q.inline_buffer.length = c.init_size
  heap_len : q.in_heap = true → q.heap_buffer.length = q.size
  inline_size : q.in_heap = false → q.size = c.init_size

/-- State of `type##_stack_s`: as the queue but with no front index — the
stack's base is always buffer index 0. -/
structure StackS (α : Type) where
  inline_buffer : List α
  heap_buffer : List α
  in_heap : Bool
  len : Nat
  size : Nat

/-- The buffer `stack->values` currently points at. -/
def StackS.values {α : Type} (s : StackS α) : List α :=
  if s.in_heap then s.heap_buffer else s.inline_buffer

/-- A write `stack->values[i] = v` through the active buffer pointer. -/
def StackS.store {α : Type} (s : StackS α) (i : Nat) (v : α) : StackS α :=
  if s.in_heap then { s with heap_buffer := s.heap_buffer.set i v }
  else { s with inline_buffer := s.inline_buffer.set i v }

/-- `type##_stack_init`. -/
def stack_init {α : Type} (c : Cfg) (s : StackS α) : StackS α :=
  { s with in_heap := false, len := 0, size := c.init_size }

/-- `type##_stack_empty`. -/
def stack_empty {α : Type} (s : StackS α) : Bool := s.len == 0

/-- `type##_stack_full`. -/
def stack_full {α : Type} (s : StackS α) : Bool := s.len == s.size

/-- `type##_stack_resize`: inline buffers are copied into a fresh heap
allocation, heap buffers are grown in place by `realloc_fn`. -/
def stack_resize {α : Type} [Inhabited α] (c : Cfg) (allocOk : Bool)
    (s : StackS α) : Bool × StackS α :=
  if c.lenMax / c.growth_factor < s.size then (false, s) else
  let new_size := s.size * c.growth_factor % 2 ^ c.w
  if s.in_heap then
    if allocOk then
      (true, { s with
        heap_buffer := s.heap_buffer ++ List.replicate (new_size - s.size) default,
        size := new_size })
    else (false, s)
  else
    if allocOk then
      (true, { s with
        heap_buffer := memCopy (List.replicate new_size default) 0 (s.values.take s.len),
        in_heap := true, size := new_size })
    else (false, s)

/-- `type##_stack_clear`. -/
def stack_clear {α : Type} (s : StackS α) : StackS α := { s with len := 0 }

/-- `type##_stack_delete`. -/
def stack_delete {α : Type} (c : Cfg) (s : StackS α) : StackS α :=
  let s1 := stack_clear s
  if s1.in_heap then { s1 with in_heap := false, size := c.init_size } else s1

/-- `type##_stack_push`. -/
def stack_push {α : Type} [Inhabited α] (c : Cfg) (allocOk : Bool)
    (s : StackS α) (v : α) : Bool × StackS α :=
  match (if stack_full s then stack_resize c allocOk s else (true, s)) with
  | (false, s1) => (false, s1)
  | (true, s1) =>
    let s2 := StackS.store s1 s1.len v
    (true, { s2 with len := s2.len + 1 })

/-- `type##_stack_pop`: only decrements `len`; does not return the value. -/
def stack_pop {α : Type} (s : StackS α) : Bool × StackS α :=
  if stack_empty s then (false, s)
  else (true, { s with len := s.len - 1 })

/-- `type##_stack_peek` (precondition non-empty is a C assert):
reads `values[len - 1]`. -/
def stack_peek {α : Type} [Inhabited α] (s : StackS α) : α :=
  s.values.getD (s.len - 1) default

/-- `type##_stack_reverse`: symmetric swaps of the live elements. -/
def stack_reverse {α : Type} [Inhabited α] (s : StackS α) : StackS α :=
  if s.len < 2 then s else
  (List.range (s.len / 2)).foldl
    (fun t i =>
      let x := t.values.getD i default
      let y := t.values.getD (t.len - 1 - i) default
      StackS.store (StackS.store t i y) (t.len - 1 - i) x) s

/-- Logical element sequence of a stack: `values[0 .. len)`. -/
def StackS.seq {α : Type} (s : StackS α) : List α := s.values.take s.len

/-- Representation invariant of a stack state. -/
structure StackInv {α : Type} (c : Cfg) (s : StackS α) : Prop where
  size_pow : ∃ k, s.size = 2 ^ k
  size_lb : c.init_size ≤ s.size
  size_ub : s.size ≤ c.lenMax
  len_le : s.len ≤ s.size
  inline_len : s.inline_buffer.length = c.init_size
  heap_len : s.in_heap = true → s.heap_buffer.length = s.size
  inline_size : s.in_heap = false → s.size = c.init_size

/-- State of `type##_deque_s`: identical storage model to the queue, the
front index field being named `front`. -/
structure DequeS (α : Type) where
  inline_buffer : List α
  heap_buffer : List α
  in_heap : Bool
  front : Nat
  len : Nat
  size : Nat

/-- The buffer `deque->values` currently points at. -/
def DequeS.values {α : Type} (d : DequeS α) : List α :=
  if d.in_heap then d.heap_buffer else d.inline_buffer

/-- A write `deque->values[i] = v` through the active buffer pointer. -/
def DequeS.store {α : Type} (d : DequeS α) (i : Nat) (v : α) : DequeS α :=
  if d.in_heap then { d with heap_buffer := d.heap_buffer.set i v }
  else { d with inline_buffer := d.inline_buffer.set i v }

/-- `type##_deque_init`. -/
def deque_init {α : Type} (c : Cfg) (d : DequeS α) : DequeS α :=
  { d with in_heap := false, front := 0, len := 0, size := c.init_size }

/-- The `deque_empty` expression macro. -/
def deque_empty {α : Type} (d : DequeS α) : Bool := d.len == 0

/-- The `deque_full` expression macro. -/
def deque_full {α : Type} (d : DequeS α) : Bool := d.len == d.size

/-- The `deque_clear` expression macro: only `deque->len = 0`. -/
def deque_clear {α : Type} (d : DequeS α) : DequeS α := { d with len := 0 }

/-- `type##_deque_peek_front` (precondition non-empty is a C assert). -/
def deque_peek_front {α : Type} [Inhabited α] (d : DequeS α) : α :=
  d.values.getD d.front default

/-- `type##_deque_peek_back` (precondition non-empty is a C assert):
reads `values[(front + len - 1) AND (size - 1)]`. -/
def deque_peek_back {α : Type} [Inhabited α] (d : DequeS α) : α :=
  d.values.getD ((d.front + d.len - 1) &&& (d.size - 1)) default

/-- `type##_deque_resize`: same four-case relocation policy as the queue. -/
def deque_resize {α : Type} [Inhabited α] (c : Cfg) (allocOk : Bool)
    (d : DequeS α) : Bool × DequeS α :=
  if c.lenMax / c.growth_factor < d.size then (false, d) else
  let new_size := d.size * c.growth_factor % 2 ^ c.w
  let not_wrapped := decide (d.front + d.len ≤ d.size)
  if not_wrapped && d.in_heap then
    if allocOk then
      (true, { d with
        heap_buffer := d.heap_buffer ++ List.replicate (new_size - d.size) default,
        size := new_size })
    else (false, d)
  else
    if allocOk then
      let fresh : List α := List.replicate new_size default
      let tmp :=
        if not_wrapped then
          memCopy fresh 0 (d.values.take d.len)
        else
          let first_chunk := d.size - d.front
          memCopy (memCopy fresh 0 ((d.values.drop d.front).take first_chunk))
            first_chunk (d.values.take d.front)
      (true, { d with heap_buffer := tmp, in_heap := true, size := new_size,
                      front := if not_wrapped then d.front else 0 })
    else (false, d)

/-- `type##_deque_delete`: clear, reset `front`, then release the heap
buffer (if any) and return to the inline buffer with the initial size. -/
def deque_delete {α : Type} (c : Cfg) (d : DequeS α) : DequeS α :=
  let d1 := { deque_clear d with front := 0 }
  if d1.in_heap then { d1 with in_heap := false, size := c.init_size } else d1

/-- `type##_deque_insert_front`: `len++`, masked decrement of `front`,
then write at the new `front`. -/
def deque_insert_front {α : Type} [Inhabited α] (c : Cfg) (allocOk : Bool)
    (d : DequeS α) (v : α) : Bool × DequeS α :=
  match (if deque_full d then deque_resize c allocOk d else (true, d)) with
  | (false, d1) => (false, d1)
  | (true, d1) =>
    let d2 := { d1 with len := d1.len + 1,
                        front := (d1.front + d1.size - 1) &&& (d1.size - 1) }
    (true, DequeS.store d2 d2.front v)

/-- `type##_deque_insert_back`: write at `(front + len) AND (size - 1)`,
then `len++`. -/
def deque_insert_back {α : Type} [Inhabited α] (c : Cfg) (allocOk : Bool)
    (d : DequeS α) (v : α) : Bool × DequeS α :=
  match (if deque_full d then deque_resize c allocOk d else (true, d)) with
  | (false, d1) => (false, d1)
  | (true, d1) =>
    let d2 := DequeS.store d1 ((d1.front + d1.len) &&& (d1.size - 1)) v
    (true, { d2 with len := d2.len + 1 })

/-- `type##_deque_remove_front`. -/
def deque_remove_front {α : Type} (d : DequeS α) : Bool × DequeS α :=
  if deque_empty d then (false, d)
  else (true, { d with front := (d.front + 1) &&& (d.size - 1), len := d.len - 1 })

/-- `type##_deque_remove_back`: only decrements `len`. -/
def deque_remove_back {α : Type} (d : DequeS α) : Bool × DequeS α :=
  if deque_empty d then (false, d)
  else (true, { d with len := d.len - 1 })

/-- Logical element sequence of a deque: element `i` is read at
`values[(front + i) AND (size - 1)]` for `i < len`. -/
def DequeS.seq {α : Type} [Inhabited α] (d : DequeS α) : List α :=
  (List.range d.len).map fun i => d.values.getD ((d.front + i) &&& (d.size - 1)) default

/-- Representation invariant of a deque state. -/
structure DequeInv {α : Type} (c : Cfg) (d : DequeS α) : Prop where
  size_pow : ∃ k, d.size = 2 ^ k
  size_lb : c.init_size ≤ d.size
  size_ub : d.size ≤ c.lenMax
  len_le : d.len ≤ d.size
  front_lt : d.front < d.size
  inline_len : d.inline_buffer.length = c.init_size
  heap_len : d.in_heap = true → d.heap_buffer.length = d.size
  inline_size : d.in_heap = false → d.size = c.init_size

/-- A public queue operation, as invokable through the API macros.  A
`Bool` argument is the outcome of the allocator call a growth inside the
operation would make. -/
inductive QueueOp (α : Type) where
  | op_init : QueueOp α
  | op_resize : Bool → QueueOp α
  | op_clear : QueueOp α
  | op_delete : QueueOp α
  | op_enque : Bool → α → QueueOp α
  | op_deque : QueueOp α
  | op_peek : QueueOp α
  | op_reverse : QueueOp α

/-- Effect of one public queue operation on the state (`peek` reads only). -/
def queue_step {α : Type} [Inhabited α] (c : Cfg) (q : QueueS α) :
    QueueOp α → QueueS α
  | .op_init => queue_init c q
  | .op_resize ok => (queue_resize c ok q).2
  | .op_clear => queue_clear q
  | .op_delete => queue_delete c q
  | .op_enque ok v => (queue_enque c ok q v).2
  | .op_deque => (queue_deque q).2
  | .op_peek => q
  | .op_reverse => queue_reverse q

/-- Run a sequence of public queue operations. -/
def queue_run {α : Type} [Inhabited α] (c : Cfg) (q : QueueS α)
    (ops : List (QueueOp α)) : QueueS α :=
  ops.foldl (queue_step c) q

/-- A public stack operation. -/
inductive StackOp (α : Type) where
  | op_init : StackOp α
  | op_resize : Bool → StackOp α
  | op_clear : StackOp α
  | op_delete : StackOp α
  | op_push : Bool → α → StackOp α
  | op_pop : StackOp α
  | op_peek : StackOp α
  | op_reverse : StackOp α

/-- Effect of one public stack operation on the state. -/
def stack_step {α : Type} [Inhabited α] (c : Cfg) (s : StackS α) :
    StackOp α → StackS α
  | .op_init => stack_init c s
  | .op_resize ok => (stack_resize c ok s).2
  | .op_clear => stack_clear s
  | .op_delete => stack_delete c s
  | .op_push ok v => (stack_push c ok s v).2
  | .op_pop => (stack_pop s).2
  | .op_peek => s
  | .op_reverse => stack_reverse s

/-- Run a sequence of public stack operations. -/
def stack_run {α : Type} [Inhabited α] (c : Cfg) (s : StackS α)
    (ops : List (StackOp α)) : StackS α :=
  ops.foldl (stack_step c) s

/-- A public deque operation (`clear` is the expression macro). -/
inductive DequeOp (α : Type) where
  | op_init : DequeOp α
  | op_resize : Bool → DequeOp α
  | op_clear : DequeOp α
  | op_delete : DequeOp α
  | op_insert_front : Bool → α → DequeOp α
  | op_insert_back : Bool → α → DequeOp α
  | op_remove_front : DequeOp α
  | op_remove_back : DequeOp α
  | op_peek_front : DequeOp α
  | op_peek_back : DequeOp α

/-- Effect of one public deque operation on the state. -/
def deque_step {α : Type} [Inhabited α] (c : Cfg) (d : DequeS α) :
    DequeOp α → DequeS α
  | .op_init => deque_init c d
  | .op_resize ok => (deque_resize c ok d).2
  | .op_clear => deque_clear d
  | .op_delete => deque_delete c d
  | .op_insert_front ok v => (deque_insert_front c ok d v).2
  | .op_insert_back ok v => (deque_insert_back c ok d v).2
  | .op_remove_front => (deque_remove_front d).2
  | .op_remove_back => (deque_remove_back d).2
  | .op_peek_front => d
  | .op_peek_back => d

/-- Run a sequence of public deque operations. -/
def deque_run {α : Type} [Inhabited α] (c : Cfg) (d : DequeS α)
    (ops : List (DequeOp α)) : DequeS α :=
  ops.foldl (deque_step c) d

/-- Push a list of values in order; each push carries the outcome of the
allocator call its growth would make.  `none` when some push fails. -/
def stack_pushAll {α : Type} [Inhabited α] (c : Cfg) (s : StackS α) :
    List (Bool × α) → Option (StackS α)
  | [] => some s
  | (ok, v) :: rest =>
    match stack_push c ok s v with
    | (true, s1) => stack_pushAll c s1 rest
    | (false, _) => none

/-- Observe `n` rounds of peek-then-pop, returning the peeked values. -/
def stack_observe {α : Type} [Inhabited α] : Nat → StackS α → List α
  | 0, _ => []
  | n + 1, s => stack_peek s :: stack_observe n (stack_pop s).2

theorem mask_eq_mod {n : Nat} (h : ∃ k, n = 2 ^ k) (x : Nat) :
    x &&& (n - 1) = x % n := by
  obtain ⟨k, rfl⟩ := h
  exact Nat.and_pow_two_sub_one_eq_mod x k

theorem mod_add_cancel {n c a b : Nat} (ha : a < n) (hb : b < n)
    (h : (c + a) % n = (c + b) % n) : a = b := by
  have h2 : a % n = b % n := Nat.ModEq.add_left_cancel' c h
  rwa [Nat.mod_eq_of_lt ha, Nat.mod_eq_of_lt hb] at h2

theorem getD_take {α : Type} (l : List α) {n i : Nat} (h : i < n) (d : α) :
    (l.take n).getD i d = l.getD i d := by
  simp [List.getD, List.getElem?_take, h]

theorem getD_set_self {α : Type} (l : List α) {n : Nat} (d a : α)
    (h : n < l.length) : (l.set n a).getD n d = a := by
  simp [List.getD, List.getElem?_set_self, h]

theorem getD_set_ne {α : Type} (l : List α) {n m : Nat} (d a : α)
    (h : n ≠ m) : (l.set n a).getD m d = l.getD m d := by
  simp [List.getD, List.getElem?_set_ne h]

theorem getD_drop {α : Type} (l : List α) (j i : Nat) (d : α) :
    (l.drop j).getD i d = l.getD (j + i) d := by
  simp [List.getD, List.getElem?_drop]

theorem set_take_succ {α : Type} :
    ∀ (l : List α) (n : Nat), n < l.length → ∀ a : α,
      (l.set n a).take (n + 1) = l.take n ++ [a]
  | [], n, h, a => by simp at h
  | x :: xs, 0, h, a => by simp
  | x :: xs, n + 1, h, a => by
    simp only [List.set, List.take, List.cons_append]
    exact congrArg (x :: ·) (set_take_succ xs n (by simpa using h) a)

theorem foldl_preserve {β σ : Type} (P : σ → Prop) (f : σ → β → σ)
    (hf : ∀ s b, P s → P (f s b)) :
    ∀ (l : List β) (s : σ), P s → P (l.foldl f s)
  | [], s, hs => hs
  | b :: l, s, hs => foldl_preserve P f hf l (f s b) (hf s b hs)

theorem Cfg.gf_pos {c : Cfg} (h : c.wf) : 0 < c.growth_factor := by
  have := h.2.2.2.1
  omega

theorem Cfg.lenMax_ge {c : Cfg} (h : c.wf) : 255 ≤ c.lenMax := by
  have hw := h.2.2.2.2.2.2
  have : (2 : Nat) ^ 8 ≤ 2 ^ c.w := Nat.pow_le_pow_right (by norm_num) hw
  unfold Cfg.lenMax
  omega

theorem Cfg.init_le_lenMax {c : Cfg} (h : c.wf) : c.init_size ≤ c.lenMax := by
  have h1 := h.2.1
  have h2 := Cfg.lenMax_ge h
  omega

theorem Cfg.guard_iff {c : Cfg} (h : c.wf) (sz : Nat) :
    c.lenMax / c.growth_factor < sz ↔ c.lenMax < sz * c.growth_factor :=
  Nat.div_lt_iff_lt_mul (Cfg.gf_pos h)

theorem Cfg.new_size_eq {c : Cfg} (h : c.wf) {sz : Nat}
    (hg : sz * c.growth_factor ≤ c.lenMax) :
    sz * c.growth_factor % 2 ^ c.w = sz * c.growth_factor := by
  apply Nat.mod_eq_of_lt
  have : c.lenMax < 2 ^ c.w := by
    unfold Cfg.lenMax
    have : 0 < 2 ^ c.w := Nat.pos_pow_of_pos c.w (by norm_num)
    omega
  omega

theorem queue_resize_guard_fail {α : Type} [Inhabited α] (c : Cfg) (ok : Bool)
    (q : QueueS α) (h : c.lenMax / c.growth_factor < q.size) :
    queue_resize c ok q = (false, q) := by
  unfold queue_resize
  rw [if_pos h]

theorem queue_resize_alloc_fail {α : Type} [Inhabited α] (c : Cfg) (q : QueueS α) :
    queue_resize c false q = (false, q) := by
  unfold queue_resize
  split
  · rfl
  · split <;> simp_all

theorem queue_resize_eq_heap_flat {α : Type} [Inhabited α] {c : Cfg} {q : QueueS α}
    (hg : ¬ c.lenMax / c.growth_factor < q.size)
    (hnw : q.head + q.len ≤ q.size) (hh : q.in_heap = true) :
    queue_resize c true q =
      (true, { q with
        heap_buffer := q.heap_buffer ++
          List.replicate (q.size * c.growth_factor % 2 ^ c.w - q.size) default,
        size := q.size * c.growth_factor % 2 ^ c.w }) := by
  unfold queue_resize
  rw [if_neg hg]
  simp [hh, hnw]

theorem queue_resize_eq_inline_flat {α : Type} [Inhabited α] {c : Cfg} {q : QueueS α}
    (hg : ¬ c.lenMax / c.growth_factor < q.size)
    (hnw : q.head + q.len ≤ q.size) (hh : q.in_heap = false) :
    queue_resize c true q =
      (true, { q with
        heap_buffer := memCopy
          (List.replicate (q.size * c.growth_factor % 2 ^ c.w) default) 0
          (q.values.take q.len),
        in_heap := true, size := q.size * c.growth_factor % 2 ^ c.w }) := by
  unfold queue_resize
  rw [if_neg hg]
  simp [hh, hnw]

theorem queue_resize_eq_wrapped {α : Type} [Inhabited α] {c : Cfg} {q : QueueS α}
    (hg : ¬ c.lenMax / c.growth_factor < q.size)
    (hw : ¬ q.head + q.len ≤ q.size) :
    queue_resize c true q =
      (true, { q with
        heap_buffer := memCopy
          (memCopy (List.replicate (q.size * c.growth_factor % 2 ^ c.w) default) 0
            ((q.values.drop q.head).take (q.size - q.head)))
          (q.size - q.head) (q.values.take q.head),
        in_heap := true, size := q.size * c.growth_factor % 2 ^ c.w,
        head := 0 }) := by
  unfold queue_resize
  rw [if_neg hg]
  simp [hw]

theorem drop_append_ge {α : Type} (l₁ l₂ : List α) {n : Nat} (h : l₁.length ≤ n) :
    (l₁ ++ l₂).drop n = l₂.drop (n - l₁.length) := by
  rw [List.drop_append_eq_append_drop]
  simp [List.drop_eq_nil_of_le h]

theorem memCopy_zero {α : Type} (n : Nat) (src : List α) (d : α) :
    memCopy (List.replicate n d) 0 src = src ++ List.replicate (n - src.length) d := by
  simp [memCopy, List.drop_replicate]

theorem memCopy_chunks {α : Type} (n off : Nat) (c1 c2 : List α) (d : α)
    (hoff : off = c1.length) (h : c1.length + c2.length ≤ n) :
    memCopy (memCopy (List.replicate n d) 0 c1) off c2 =
      c1 ++ c2 ++ List.replicate (n - c1.length - c2.length) d := by
  subst hoff
  rw [memCopy_zero]
  unfold memCopy
  rw [List.take_append_of_le_length (by simp), drop_append_ge c1 _ (by omega)]
  simp [List.take_of_length_le, List.drop_replicate]

theorem Cfg.mul_gf_pow {c : Cfg} (hwf : c.wf) {n : Nat} (hn : ∃ k, n = 2 ^ k) :
    ∃ k, n * c.growth_factor = 2 ^ k := by
  obtain ⟨k, rfl⟩ := hn
  obtain ⟨j, hj⟩ := hwf.2.2.2.2.2.1
  exact ⟨k + j, by rw [hj, pow_add]⟩

theorem queue_values_len {α : Type} {c : Cfg} {q : QueueS α} (hinv : QueueInv c q) :
    q.values.length = q.size := by
  unfold QueueS.values
  cases hq : q.in_heap
  · rw [if_neg (by simp), hinv.inline_len, hinv.inline_size hq]
  · rw [if_pos rfl, hinv.heap_len hq]

theorem queue_values_read_heap {α : Type} (ib hb : List α) (h l n : Nat) :
    QueueS.values ⟨ib, hb, true, h, l, n⟩ = hb := rfl

theorem queue_seq_heap_flat {α : Type} [Inhabited α] {c : Cfg} {q : QueueS α}
    (hwf : c.wf) (hinv : QueueInv c q)
    (hnw : q.head + q.len ≤ q.size) (hh : q.in_heap = true)
    (hns : q.size * c.growth_factor ≤ c.lenMax) :
    QueueS.seq { q with
      heap_buffer := q.heap_buffer ++
        List.replicate (q.size * c.growth_factor % 2 ^ c.w - q.size) default,
      size := q.size * c.growth_factor % 2 ^ c.w } = q.seq := by
  have hsz : q.size ≤ q.size * c.growth_factor :=
    Nat.le_mul_of_pos_right _ (Cfg.gf_pos hwf)
  rw [Cfg.new_size_eq hwf hns]
  unfold QueueS.seq
  apply List.map_congr_left
  intro i hi
  simp only [List.mem_range] at hi
  have hlen : q.heap_buffer.length = q.size := hinv.heap_len hh
  have hi2 : q.head + i < q.size := by
    have := hinv.len_le
    omega
  simp only [QueueS.values, hh, if_pos]
  rw [mask_eq_mod (Cfg.mul_gf_pow hwf hinv.size_pow),
    mask_eq_mod hinv.size_pow,
    Nat.mod_eq_of_lt (lt_of_lt_of_le hi2 hsz), Nat.mod_eq_of_lt hi2,
    List.getD_append _ _ _ _ (by omega)]

theorem queue_seq_inline_flat0 {α : Type} [Inhabited α] {c : Cfg} {q : QueueS α}
    (hwf : c.wf) (hinv : QueueInv c q)
    (h0 : q.head = 0) (hns : q.size * c.growth_factor ≤ c.lenMax) :
    QueueS.seq { q with
      heap_buffer := memCopy
        (List.replicate (q.size * c.growth_factor % 2 ^ c.w) default) 0
        (q.values.take q.len),
      in_heap := true, size := q.size * c.growth_factor % 2 ^ c.w } = q.seq := by
  have hsz : q.size ≤ q.size * c.growth_factor :=
    Nat.le_mul_of_pos_right _ (Cfg.gf_pos hwf)
  have hvl : q.values.length = q.size := queue_values_len hinv
  have htl : (q.values.take q.len).length = q.len := by
    rw [List.length_take]
    have := hinv.len_le
    omega
  rw [Cfg.new_size_eq hwf hns, memCopy_zero, htl]
  unfold QueueS.seq
  apply List.map_congr_left
  intro i hi
  simp only [List.mem_range] at hi
  have hil : i < q.size := lt_of_lt_of_le hi hinv.len_le
  simp only [queue_values_read_heap]
  rw [mask_eq_mod (Cfg.mul_gf_pow hwf hinv.size_pow),
    mask_eq_mod hinv.size_pow, h0, Nat.zero_add,
    Nat.mod_eq_of_lt (lt_of_lt_of_le hil hsz), Nat.mod_eq_of_lt hil,
    List.getD_append _ _ _ _ (by rw [htl]; exact hi), getD_take _ hi]

theorem queue_seq_wrapped {α : Type} [Inhabited α] {c : Cfg} {q : QueueS α}
    (hwf : c.wf) (hinv : QueueInv c q)
    (hw : ¬ q.head + q.len ≤ q.size) (hns : q.size * c.growth_factor ≤ c.lenMax) :
    QueueS.seq { q with
      heap_buffer := memCopy
        (memCopy (List.replicate (q.size * c.growth_factor % 2 ^ c.w) default) 0
          ((q.values.drop q.head).take (q.size - q.head)))
        (q.size - q.head) (q.values.take q.head),
      in_heap := true, size := q.size * c.growth_factor % 2 ^ c.w,
      head := 0 } = q.seq := by
  have hsz : q.size ≤ q.size * c.growth_factor :=
    Nat.le_mul_of_pos_right _ (Cfg.gf_pos hwf)
  have hvl : q.values.length = q.size := queue_values_len hinv
  have hhd := hinv.head_lt
  have hc1 : ((q.values.drop q.head).take (q.size - q.head)).length = q.size - q.head := by
    simp [List.length_take, List.length_drop]
    omega
  have hc2 : (q.values.take q.head).length = q.head := by
    simp [List.length_take]
    omega
  rw [Cfg.new_size_eq hwf hns,
    memCopy_chunks _ _ _ _ _ hc1.symm (by rw [hc1, hc2]; omega)]
  unfold QueueS.seq
  apply List.map_congr_left
  intro i hi
  simp only [List.mem_range] at hi
  have hil : i < q.size := lt_of_lt_of_le hi hinv.len_le
  simp only [queue_values_read_heap]
  rw [mask_eq_mod (Cfg.mul_gf_pow hwf hinv.size_pow), mask_eq_mod hinv.size_pow,
    Nat.zero_add, Nat.mod_eq_of_lt (lt_of_lt_of_le hil hsz)]
  have hll := hinv.len_le
  rcases Nat.lt_or_ge i (q.size - q.head) with hcase | hcase
  · rw [List.getD_append _ _ _ _ (by rw [List.length_append, hc1, hc2]; omega),
      List.getD_append _ _ _ _ (by rw [hc1]; exact hcase),
      getD_take _ hcase, getD_drop,
      Nat.mod_eq_of_lt (by omega)]
  · rw [List.getD_append _ _ _ _ (by rw [List.length_append, hc1, hc2]; omega),
      List.getD_append_right _ _ _ _ (by rw [hc1]; omega), hc1,
      getD_take _ (show i - (q.size - q.head) < q.head by omega),
      Nat.mod_eq_sub_mod (by omega), Nat.mod_eq_of_lt (by omega)]
    congr 1
    omega

theorem queue_resize_true_char {α : Type} [Inhabited α] {c : Cfg} {ok : Bool}
    {q q' : QueueS α} (hwf : c.wf) (hinv : QueueInv c q)
    (h : queue_resize c ok q = (true, q')) :
    ok = true ∧ q.size * c.growth_factor ≤ c.lenMax ∧
    q'.size = q.size * c.growth_factor ∧ q'.len = q.len ∧
    q'.inline_buffer = q.inline_buffer ∧ q'.in_heap = true ∧
    QueueInv c q' ∧
    (q.head + q.len ≤ q.size → q'.head = q.head) ∧
    (¬ q.head + q.len ≤ q.size → q'.head = 0) ∧
    ((¬ q.head + q.len ≤ q.size) ∨ q.in_heap = true ∨ q.head = 0 →
      q'.seq = q.seq) := by
  cases ok with
  | false => rw [queue_resize_alloc_fail] at h; exact absurd h (by simp)
  | true =>
    by_cases hg : c.lenMax / c.growth_factor < q.size
    · rw [queue_resize_guard_fail _ _ _ hg] at h
      exact absurd h (by simp)
    have hns : q.size * c.growth_factor ≤ c.lenMax :=
      le_of_not_lt (fun hlt => hg ((Cfg.guard_iff hwf q.size).mpr hlt))
    have hns' := Cfg.new_size_eq hwf hns
    have hsz : q.size ≤ q.size * c.growth_factor :=
      Nat.le_mul_of_pos_right _ (Cfg.gf_pos hwf)
    have hvl : q.values.length = q.size := queue_values_len hinv
    by_cases hnw : q.head + q.len ≤ q.size
    · by_cases hh : q.in_heap = true
      · rw [queue_resize_eq_heap_flat hg hnw hh] at h
        simp only [Prod.mk.injEq, true_and] at h
        subst h
        refine ⟨rfl, hns, by simp [hns'], rfl, rfl, hh, ?_, fun _ => rfl,
          fun hc => absurd hnw hc,
          fun _ => queue_seq_heap_flat hwf hinv hnw hh hns⟩
        refine ⟨?_, ?_, ?_, ?_, ?_, hinv.inline_len, ?_, ?_⟩
        · simp only [hns']
          exact Cfg.mul_gf_pow hwf hinv.size_pow
        · simp only [hns']
          exact le_trans hinv.size_lb hsz
        · simp only [hns']
          exact hns
        · simp only [hns']
          exact le_trans hinv.len_le hsz
        · simp only [hns']
          exact lt_of_lt_of_le hinv.head_lt hsz
        · intro _
          simp only [List.length_append, List.length_replicate, hns',
            hinv.heap_len hh]
          omega
        · intro hfalse
          rw [hh] at hfalse
          cases hfalse
      · have hh' : q.in_heap = false := by
          cases hq : q.in_heap
          · rfl
          · exact absurd hq hh
        rw [queue_resize_eq_inline_flat hg hnw hh'] at h
        simp only [Prod.mk.injEq, true_and] at h
        subst h
        refine ⟨rfl, hns, by simp [hns'], rfl, rfl, rfl, ?_, fun _ => rfl,
          fun hc => absurd hnw hc, ?_⟩
        · refine ⟨?_, ?_, ?_, ?_, ?_, hinv.inline_len, ?_, ?_⟩
          · simp only [hns']
            exact Cfg.mul_gf_pow hwf hinv.size_pow
          · simp only [hns']
            exact le_trans hinv.size_lb hsz
          · simp only [hns']
            exact hns
          · simp only [hns']
            exact le_trans hinv.len_le hsz
          · simp only [hns']
            exact lt_of_lt_of_le hinv.head_lt hsz
          · intro _
            simp only [memCopy_zero, List.length_append, List.length_replicate,
              List.length_take, hns', hvl]
            have := hinv.len_le
            omega
          · intro hfalse
            cases hfalse
        · rintro (hc | hc | hc)
          · exact absurd hnw hc
          · rw [hh'] at hc
            cases hc
          · exact queue_seq_inline_flat0 hwf hinv hc hns
    · rw [queue_resize_eq_wrapped hg hnw] at h
      simp only [Prod.mk.injEq, true_and] at h
      subst h
      have hhd := hinv.head_lt
      refine ⟨rfl, hns, by simp [hns'], rfl, rfl, rfl, ?_,
        fun hc => absurd hc hnw, fun _ => rfl,
        fun _ => queue_seq_wrapped hwf hinv hnw hns⟩
      refine ⟨?_, ?_, ?_, ?_, ?_, hinv.inline_len, ?_, ?_⟩
      · simp only [hns']
        exact Cfg.mul_gf_pow hwf hinv.size_pow
      · simp only [hns']
        exact le_trans hinv.size_lb hsz
      · simp only [hns']
        exact hns
      · simp only [hns']
        exact le_trans hinv.len_le hsz
      · simp only [hns']
        have h2 := hwf.1
        have h3 := hinv.size_lb
        omega
      · intro _
        have hc1 : ((q.values.drop q.head).take (q.size - q.head)).length =
            q.size - q.head := by
          simp [List.length_take, List.length_drop]
          omega
        have hc2 : (q.values.take q.head).length = q.head := by
          simp [List.length_take]
          omega
        rw [memCopy_chunks _ _ _ _ _ hc1.symm (by rw [hc1, hc2]; omega)]
        simp only [List.length_append, List.length_replicate, hc1, hc2, hns']
        omega
      · intro hfalse
        cases hfalse

theorem queue_resize_cases {α : Type} [Inhabited α] (c : Cfg) (ok : Bool)
    (q : QueueS α) :
    queue_resize c ok q = (false, q) ∨ (queue_resize c ok q).1 = true := by
  unfold queue_resize
  by_cases hg : c.lenMax / c.growth_factor < q.size
  · rw [if_pos hg]
    left
    rfl
  · rw [if_neg hg]
    cases ok <;> by_cases hnw : q.head + q.len ≤ q.size <;>
      by_cases hh : q.in_heap = true <;> simp [hnw, hh]

theorem queue_resize_succeeds {α : Type} [Inhabited α] {c : Cfg} {q : QueueS α}
    (hwf : c.wf) (hg : q.size * c.growth_factor ≤ c.lenMax) :
    (queue_resize c true q).1 = true := by
  unfold queue_resize
  rw [if_neg (by rw [Cfg.guard_iff hwf]; omega)]
  by_cases hnw : q.head + q.len ≤ q.size <;>
    by_cases hh : q.in_heap = true <;> simp [hnw, hh]

theorem queue_store_proj {α : Type} (q : QueueS α) (i : Nat) (v : α) :
    (q.store i v).len = q.len ∧ (q.store i v).head = q.head ∧
    (q.store i v).size = q.size ∧ (q.store i v).in_heap = q.in_heap ∧
    (q.store i v).values = q.values.set i v ∧
    (q.store i v).inline_buffer.length = q.inline_buffer.length ∧
    (q.store i v).heap_buffer.length = q.heap_buffer.length := by
  unfold QueueS.store QueueS.values
  cases q.in_heap <;> simp

theorem queue_inv_transfer {α : Type} {c : Cfg} {q q' : QueueS α}
    (hinv : QueueInv c q)
    (hsize : q'.size = q.size) (hih : q'.in_heap = q.in_heap)
    (hibl : q'.inline_buffer.length = q.inline_buffer.length)
    (hhbl : q'.heap_buffer.length = q.heap_buffer.length)
    (hlen : q'.len ≤ q.size) (hhead : q'.head < q.size) : QueueInv c q' := by
  refine ⟨hsize ▸ hinv.size_pow, hsize ▸ hinv.size_lb, hsize ▸ hinv.size_ub,
    hsize ▸ hlen, hsize ▸ hhead, hibl.trans hinv.inline_len, ?_, ?_⟩
  · intro hh
    rw [hhbl, hsize, hinv.heap_len (hih ▸ hh)]
  · intro hh
    rw [hsize, hinv.inline_size (hih ▸ hh)]

theorem queue_store_inv {α : Type} {c : Cfg} {q : QueueS α}
    (hinv : QueueInv c q) (i : Nat) (v : α) : QueueInv c (q.store i v) := by
  obtain ⟨h1, h2, h3, h4, h5, h6, h7⟩ := queue_store_proj q i v
  exact queue_inv_transfer hinv h3 h4 h6 h7 (h1 ▸ hinv.len_le) (h2 ▸ hinv.head_lt)

theorem queue_seq_of_set {α : Type} [Inhabited α] {c : Cfg} {q q' : QueueS α}
    {v : α} (hinv : QueueInv c q) (hlt : q.len < q.size)
    (hlen : q'.len = q.len + 1) (hhead : q'.head = q.head)
    (hsize : q'.size = q.size) (hih : q'.in_heap = q.in_heap)
    (hvals : q'.values = q.values.set ((q.head + q.len) &&& (q.size - 1)) v) :
    q'.seq = q.seq ++ [v] := by
  have hvl : q.values.length = q.size := queue_values_len hinv
  have hszpos : 0 < q.size := Nat.lt_of_le_of_lt (Nat.zero_le _) hlt
  have hmask : (q.head + q.len) &&& (q.size - 1) = (q.head + q.len) % q.size :=
    mask_eq_mod hinv.size_pow _
  unfold QueueS.seq
  rw [hlen, hhead, hsize, hvals, hmask, List.range_succ, List.map_append]
  congr 1
  · apply List.map_congr_left
    intro i hi
    simp only [List.mem_range] at hi
    rw [mask_eq_mod hinv.size_pow]
    apply getD_set_ne
    intro hc
    have hle : q.len = i := mod_add_cancel (by omega) (by omega) hc
    omega
  · simp only [List.map_cons, List.map_nil]
    rw [mask_eq_mod hinv.size_pow]
    rw [getD_set_self _ _ _ (by rw [hvl]; exact Nat.mod_lt _ hszpos)]

theorem queue_write_char {α : Type} [Inhabited α] {c : Cfg} {q1 : QueueS α}
    (hinv1 : QueueInv c q1) (hlt1 : q1.len < q1.size) (v : α) :
    QueueS.seq { QueueS.store q1 ((q1.head + q1.len) &&& (q1.size - 1)) v with
        len := (QueueS.store q1 ((q1.head + q1.len) &&& (q1.size - 1)) v).len + 1 } =
      q1.seq ++ [v] ∧
    QueueInv c { QueueS.store q1 ((q1.head + q1.len) &&& (q1.size - 1)) v with
        len := (QueueS.store q1 ((q1.head + q1.len) &&& (q1.size - 1)) v).len + 1 } ∧
    (QueueS.store q1 ((q1.head + q1.len) &&& (q1.size - 1)) v).len + 1 =
      q1.len + 1 := by
  obtain ⟨hsl, hsh, hss, hsi, hsv, hsb1, hsb2⟩ :=
    queue_store_proj q1 ((q1.head + q1.len) &&& (q1.size - 1)) v
  refine ⟨?_, ?_, by rw [hsl]⟩
  · exact queue_seq_of_set hinv1 hlt1 (congrArg (· + 1) hsl) hsh hss hsi hsv
  · exact queue_inv_transfer hinv1 hss hsi hsb1 hsb2
      (by rw [show ({ QueueS.store q1 ((q1.head + q1.len) &&& (q1.size - 1)) v with
          len := (QueueS.store q1 ((q1.head + q1.len) &&& (q1.size - 1)) v).len + 1 }
          : QueueS α).len =
          (QueueS.store q1 ((q1.head + q1.len) &&& (q1.size - 1)) v).len + 1 from rfl,
        hsl]; omega)
      (by have hhl := hinv1.head_lt
          rw [← hsh] at hhl
          exact hhl)

theorem queue_enque_true_char {α : Type} [Inhabited α] {c : Cfg} {ok : Bool}
    {q q' : QueueS α} {v : α} (hwf : c.wf) (hinv : QueueInv c q)
    (h : queue_enque c ok q v = (true, q')) :
    q'.seq = q.seq ++ [v] ∧ QueueInv c q' ∧ q'.len = q.len + 1 := by
  unfold queue_enque at h
  by_cases hfull : q.len = q.size
  · rw [if_pos (by simp [queue_full, hfull])] at h
    rcases hr : queue_resize c ok q with ⟨b, q1⟩
    rw [hr] at h
    cases b
    · exact absurd h (by simp)
    · simp only [Prod.mk.injEq, true_and] at h
      obtain ⟨-, -, hsz1, hlen1, -, -, hinv1, -, -, hseq1⟩ :=
        queue_resize_true_char hwf hinv hr
      have hseq : q1.seq = q.seq := by
        apply hseq1
        by_cases hnw : q.head + q.len ≤ q.size
        · right; right
          have := hinv.head_lt
          omega
        · left; exact hnw
      have hgf : 1 < c.growth_factor := hwf.2.2.2.1
      have hszpos : 0 < q.size := by
        have := hinv.size_lb
        have := hwf.1
        omega
      have hlt1 : q1.len < q1.size := by
        rw [hlen1, hsz1, hfull]
        calc q.size = q.size * 1 := by ring
          _ < q.size * c.growth_factor := by
              exact Nat.mul_lt_mul_of_le_of_lt (le_refl _) hgf hszpos
      obtain ⟨hwseq, hwinv, hwlen⟩ := queue_write_char hinv1 hlt1 v
      subst h
      exact ⟨hwseq.trans (by rw [hseq]), hwinv, by rw [hwlen, hlen1]⟩
  · rw [if_neg (by simp [queue_full, hfull])] at h
    simp only [Prod.mk.injEq, true_and] at h
    have hlt : q.len < q.size := Nat.lt_of_le_of_ne hinv.len_le hfull
    obtain ⟨hwseq, hwinv, hwlen⟩ := queue_write_char hinv hlt v
    subst h
    exact ⟨hwseq, hwinv, hwlen⟩

theorem queue_enque_succeeds {α : Type} [Inhabited α] {c : Cfg} {q : QueueS α}
    (hwf : c.wf) (hinv : QueueInv c q) (v : α)
    (hok : q.len = q.size → q.size * c.growth_factor ≤ c.lenMax) :
    (queue_enque c true q v).1 = true := by
  unfold queue_enque
  by_cases hfull : q.len = q.size
  · rw [if_pos (by simp [queue_full, hfull])]
    rcases hr : queue_resize c true q with ⟨b, q1⟩
    have hb : b = true := by
      have hs := queue_resize_succeeds hwf (hok hfull) (q := q)
      rw [hr] at hs
      exact hs
    subst hb
    simp
  · rw [if_neg (by simp [queue_full, hfull])]

theorem queue_enque_false {α : Type} [Inhabited α] {c : Cfg} {ok : Bool}
    {q q' : QueueS α} {v : α}
    (h : queue_enque c ok q v = (false, q')) : q' = q := by
  unfold queue_enque at h
  by_cases hfull : q.len = q.size
  · rw [if_pos (by simp [queue_full, hfull])] at h
    rcases hr : queue_resize c ok q with ⟨b, q1⟩
    rw [hr] at h
    cases b
    · rcases queue_resize_cases c ok q with hc | hc
      · rw [hr] at hc
        simp only [Prod.mk.injEq] at h hc
        rw [h.2.symm, hc.2]
      · rw [hr] at hc
        simp at hc
    · exact absurd h (by simp)
  · rw [if_neg (by simp [queue_full, hfull])] at h
    exact absurd h (by simp)

theorem queue_resize_inv {α : Type} [Inhabited α] {c : Cfg} {q : QueueS α}
    (hwf : c.wf) (hinv : QueueInv c q) (ok : Bool) :
    QueueInv c (queue_resize c ok q).2 := by
  rcases hr : queue_resize c ok q with ⟨b, q1⟩
  cases b
  · rcases queue_resize_cases c ok q with h | h
    · rw [hr] at h
      simp only [Prod.mk.injEq] at h
      rw [h.2]
      exact hinv
    · rw [hr] at h
      simp at h
  · exact (queue_resize_true_char hwf hinv hr).2.2.2.2.2.2.1

theorem queue_enque_inv {α : Type} [Inhabited α] {c : Cfg} {q : QueueS α}
    (hwf : c.wf) (hinv : QueueInv c q) (ok : Bool) (v : α) :
    QueueInv c (queue_enque c ok q v).2 := by
  rcases he : queue_enque c ok q v with ⟨b, q'⟩
  cases b
  · rw [queue_enque_false he]
    exact hinv
  · exact (queue_enque_true_char hwf hinv he).2.1

theorem queue_size_pos {α : Type} {c : Cfg} {q : QueueS α}
    (hwf : c.wf) (hinv : QueueInv c q) : 0 < q.size := by
  have h1 := hinv.size_lb
  have h2 := hwf.1
  omega

theorem queue_deque_inv {α : Type} {c : Cfg} {q : QueueS α}
    (hwf : c.wf) (hinv : QueueInv c q) : QueueInv c (queue_deque q).2 := by
  unfold queue_deque queue_empty
  by_cases h : q.len = 0
  · simp only [h, beq_self_eq_true, if_pos]
    exact hinv
  · simp only [beq_iff_eq, h, if_neg, if_false]
    refine queue_inv_transfer hinv rfl rfl rfl rfl
      (le_trans (Nat.sub_le _ _) hinv.len_le) ?_
    rw [mask_eq_mod hinv.size_pow]
    exact Nat.mod_lt _ (queue_size_pos hwf hinv)

theorem queue_clear_inv {α : Type} {c : Cfg} {q : QueueS α}
    (hwf : c.wf) (hinv : QueueInv c q) : QueueInv c (queue_clear q) :=
  queue_inv_transfer hinv rfl rfl rfl rfl (Nat.zero_le _)
    (queue_size_pos hwf hinv)

theorem queue_delete_inv {α : Type} {c : Cfg} {q : QueueS α}
    (hwf : c.wf) (hinv : QueueInv c q) : QueueInv c (queue_delete c q) := by
  unfold queue_delete queue_clear
  by_cases h : q.in_heap = true
  · simp only [h, if_pos]
    refine ⟨hwf.2.2.1, le_refl _, Cfg.init_le_lenMax hwf, Nat.zero_le _,
      show 0 < c.init_size by have := hwf.1; omega, hinv.inline_len,
      ?_, fun _ => rfl⟩
    intro hfalse
    cases hfalse
  · have h' : q.in_heap = false := by
      cases hq : q.in_heap
      · rfl
      · exact absurd hq h
    simp only [h', Bool.false_eq_true, if_neg, if_false]
    exact queue_inv_transfer hinv rfl h'.symm rfl rfl (Nat.zero_le _)
      (queue_size_pos hwf hinv)

theorem queue_init_inv {α : Type} {c : Cfg} {q : QueueS α}
    (hwf : c.wf) (hlen : q.inline_buffer.length = c.init_size) :
    QueueInv c (queue_init c q) := by
  refine ⟨hwf.2.2.1, le_refl _, Cfg.init_le_lenMax hwf, Nat.zero_le _, ?_,
    hlen, (fun hfalse => nomatch hfalse), fun _ => rfl⟩
  show 0 < c.init_size
  have := hwf.1
  omega

theorem queue_reverse_inv {α : Type} [Inhabited α] {c : Cfg} {q : QueueS α}
    (hinv : QueueInv c q) : QueueInv c (queue_reverse q) := by
  unfold queue_reverse
  by_cases h : q.len < 2
  · rw [if_pos h]
    exact hinv
  · rw [if_neg h]
    exact foldl_preserve (QueueInv c) _
      (fun s i hs => queue_store_inv (queue_store_inv hs _ _) _ _) _ _ hinv

theorem queue_step_inv {α : Type} [Inhabited α] {c : Cfg} {q : QueueS α}
    (hwf : c.wf) (hinv : QueueInv c q) (op : QueueOp α) :
    QueueInv c (queue_step c q op) := by
  cases op with
  | op_init => exact queue_init_inv hwf hinv.inline_len
  | op_resize ok => exact queue_resize_inv hwf hinv ok
  | op_clear => exact queue_clear_inv hwf hinv
  | op_delete => exact queue_delete_inv hwf hinv
  | op_enque ok v => exact queue_enque_inv hwf hinv ok v
  | op_deque => exact queue_deque_inv hwf hinv
  | op_peek => exact hinv
  | op_reverse => exact queue_reverse_inv hinv

theorem queue_run_inv {α : Type} [Inhabited α] {c : Cfg} {q : QueueS α}
    (hwf : c.wf) (hinv : QueueInv c q) (ops : List (QueueOp α)) :
    QueueInv c (queue_run c q ops) :=
  foldl_preserve (QueueInv c) _ (fun s op hs => queue_step_inv hwf hs op)
    ops q hinv

theorem stack_values_len {α : Type} {c : Cfg} {s : StackS α} (hinv : StackInv c s) :
    s.values.length = s.size := by
  unfold StackS.values
  cases hq : s.in_heap
  · rw [if_neg (by simp), hinv.inline_len, hinv.inline_size hq]
  · rw [if_pos rfl, hinv.heap_len hq]

theorem stack_resize_guard_fail {α : Type} [Inhabited α] (c : Cfg) (ok : Bool)
    (s : StackS α) (h : c.lenMax / c.growth_factor < s.size) :
    stack_resize c ok s = (false, s) := by
  unfold stack_resize
  rw [if_pos h]

theorem stack_resize_alloc_fail {α : Type} [Inhabited α] (c : Cfg) (s : StackS α) :
    stack_resize c false s = (false, s) := by
  unfold stack_resize
  split
  · rfl
  · split <;> simp_all

theorem stack_resize_eq_heap {α : Type} [Inhabited α] {c : Cfg} {s : StackS α}
    (hg : ¬ c.lenMax / c.growth_factor < s.size) (hh : s.in_heap = true) :
    stack_resize c true s =
      (true, { s with
        heap_buffer := s.heap_buffer ++
          List.replicate (s.size * c.growth_factor % 2 ^ c.w - s.size) default,
        size := s.size * c.growth_factor % 2 ^ c.w }) := by
  unfold stack_resize
  rw [if_neg hg]
  simp [hh]

theorem stack_resize_eq_inline {α : Type} [Inhabited α] {c : Cfg} {s : StackS α}
    (hg : ¬ c.lenMax / c.growth_factor < s.size) (hh : s.in_heap = false) :
    stack_resize c true s =
      (true, { s with
        heap_buffer := memCopy
          (List.replicate (s.size * c.growth_factor % 2 ^ c.w) default) 0
          (s.values.take s.len),
        in_heap := true, size := s.size * c.growth_factor % 2 ^ c.w }) := by
  unfold stack_resize
  rw [if_neg hg]
  simp [hh]

theorem stack_resize_cases {α : Type} [Inhabited α] (c : Cfg) (ok : Bool)
    (s : StackS α) :
    stack_resize c ok s = (false, s) ∨ (stack_resize c ok s).1 = true := by
  unfold stack_resize
  by_cases hg : c.lenMax / c.growth_factor < s.size
  · rw [if_pos hg]
    left
    rfl
  · rw [if_neg hg]
    cases ok <;> by_cases hh : s.in_heap = true <;> simp [hh]

theorem stack_resize_succeeds {α : Type} [Inhabited α] {c : Cfg} {s : StackS α}
    (hwf : c.wf) (hg : s.size * c.growth_factor ≤ c.lenMax) :
    (stack_resize c true s).1 = true := by
  unfold stack_resize
  rw [if_neg (by rw [Cfg.guard_iff hwf]; omega)]
  by_cases hh : s.in_heap = true <;> simp [hh]

theorem stack_values_read_heap {α : Type} (ib hb : List α) (l n : Nat) :
    StackS.values ⟨ib, hb, true, l, n⟩ = hb := rfl

theorem stack_seq_heap {α : Type} [Inhabited α] {c : Cfg} {s : StackS α}
    (hwf : c.wf) (hinv : StackInv c s) (hh : s.in_heap = true)
    (hns : s.size * c.growth_factor ≤ c.lenMax) :
    StackS.seq { s with
      heap_buffer := s.heap_buffer ++
        List.replicate (s.size * c.growth_factor % 2 ^ c.w - s.size) default,
      size := s.size * c.growth_factor % 2 ^ c.w } = s.seq := by
  unfold StackS.seq
  show (StackS.values _).take s.len = (s.values).take s.len
  simp only [StackS.values, hh, if_pos]
  rw [List.take_append_of_le_length (by rw [hinv.heap_len hh]; exact hinv.len_le)]

theorem stack_seq_inline {α : Type} [Inhabited α] {c : Cfg} {s : StackS α}
    (hwf : c.wf) (hinv : StackInv c s) (hh : s.in_heap = false)
    (hns : s.size * c.growth_factor ≤ c.lenMax) :
    StackS.seq { s with
      heap_buffer := memCopy
        (List.replicate (s.size * c.growth_factor % 2 ^ c.w) default) 0
        (s.values.take s.len),
      in_heap := true, size := s.size * c.growth_factor % 2 ^ c.w } = s.seq := by
  have hvl := stack_values_len hinv
  unfold StackS.seq
  show (StackS.values _).take s.len = (s.values).take s.len
  rw [show StackS.values { s with
      heap_buffer := memCopy
        (List.replicate (s.size * c.growth_factor % 2 ^ c.w) default) 0
        (s.values.take s.len),
      in_heap := true, size := s.size * c.growth_factor % 2 ^ c.w } =
    memCopy (List.replicate (s.size * c.growth_factor % 2 ^ c.w) default) 0
      (s.values.take s.len) from rfl, memCopy_zero]
  rw [List.take_append_of_le_length (by
    rw [List.length_take]
    have := hinv.len_le
    omega)]
  rw [List.take_take, Nat.min_self]

theorem stack_inv_transfer {α : Type} {c : Cfg} {s s' : StackS α}
    (hinv : StackInv c s)
    (hsize : s'.size = s.size) (hih : s'.in_heap = s.in_heap)
    (hibl : s'.inline_buffer.length = s.inline_buffer.length)
    (hhbl : s'.heap_buffer.length = s.heap_buffer.length)
    (hlen : s'.len ≤ s.size) : StackInv c s' := by
  refine ⟨hsize ▸ hinv.size_pow, hsize ▸ hinv.size_lb, hsize ▸ hinv.size_ub,
    hsize ▸ hlen, hibl.trans hinv.inline_len, ?_, ?_⟩
  · intro hh
    rw [hhbl, hsize, hinv.heap_len (hih ▸ hh)]
  · intro hh
    rw [hsize, hinv.inline_size (hih ▸ hh)]

theorem stack_store_proj {α : Type} (s : StackS α) (i : Nat) (v : α) :
    (s.store i v).len = s.len ∧ (s.store i v).size = s.size ∧
    (s.store i v).in_heap = s.in_heap ∧
    (s.store i v).values = s.values.set i v ∧
    (s.store i v).inline_buffer.length = s.inline_buffer.length ∧
    (s.store i v).heap_buffer.length = s.heap_buffer.length := by
  unfold StackS.store StackS.values
  cases s.in_heap <;> simp

theorem stack_store_inv {α : Type} {c : Cfg} {s : StackS α}
    (hinv : StackInv c s) (i : Nat) (v : α) : StackInv c (s.store i v) := by
  obtain ⟨h1, h2, h3, h4, h5, h6⟩ := stack_store_proj s i v
  exact stack_inv_transfer hinv h2 h3 h5 h6 (h1 ▸ hinv.len_le)

theorem stack_resize_true_char {α : Type} [Inhabited α] {c : Cfg} {ok : Bool}
    {s s' : StackS α} (hwf : c.wf) (hinv : StackInv c s)
    (h : stack_resize c ok s = (true, s')) :
    ok = true ∧ s.size * c.growth_factor ≤ c.lenMax ∧
    s'.size = s.size * c.growth_factor ∧ s'.len = s.len ∧
    s'.inline_buffer = s.inline_buffer ∧ s'.in_heap = true ∧
    StackInv c s' ∧ s'.seq = s.seq := by
  cases ok with
  | false => rw [stack_resize_alloc_fail] at h; exact absurd h (by simp)
  | true =>
    by_cases hg : c.lenMax / c.growth_factor < s.size
    · rw [stack_resize_guard_fail _ _ _ hg] at h
      exact absurd h (by simp)
    have hns : s.size * c.growth_factor ≤ c.lenMax :=
      le_of_not_lt (fun hlt => hg ((Cfg.guard_iff hwf s.size).mpr hlt))
    have hns' := Cfg.new_size_eq hwf hns
    have hsz : s.size ≤ s.size * c.growth_factor :=
      Nat.le_mul_of_pos_right _ (Cfg.gf_pos hwf)
    have hvl : s.values.length = s.size := stack_values_len hinv
    by_cases hh : s.in_heap = true
    · rw [stack_resize_eq_heap hg hh] at h
      simp only [Prod.mk.injEq, true_and] at h
      subst h
      refine ⟨rfl, hns, by simp [hns'], rfl, rfl, hh, ?_,
        stack_seq_heap hwf hinv hh hns⟩
      refine ⟨?_, ?_, ?_, ?_, hinv.inline_len, ?_, ?_⟩
      · simp only [hns']
        exact Cfg.mul_gf_pow hwf hinv.size_pow
      · simp only [hns']
        exact le_trans hinv.size_lb hsz
      · simp only [hns']
        exact hns
      · simp only [hns']
        exact le_trans hinv.len_le hsz
      · intro _
        simp only [List.length_append, List.length_replicate, hns',
          hinv.heap_len hh]
        omega
      · intro hfalse
        rw [hh] at hfalse
        cases hfalse
    · have hh' : s.in_heap = false := by
        cases hq : s.in_heap
        · rfl
        · exact absurd hq hh
      rw [stack_resize_eq_inline hg hh'] at h
      simp only [Prod.mk.injEq, true_and] at h
      subst h
      refine ⟨rfl, hns, by simp [hns'], rfl, rfl, rfl, ?_,
        stack_seq_inline hwf hinv hh' hns⟩
      refine ⟨?_, ?_, ?_, ?_, hinv.inline_len, ?_, ?_⟩
      · simp only [hns']
        exact Cfg.mul_gf_pow hwf hinv.size_pow
      · simp only [hns']
        exact le_trans hinv.size_lb hsz
      · simp only [hns']
        exact hns
      · simp only [hns']
        exact le_trans hinv.len_le hsz
      · intro _
        simp only [memCopy_zero, List.length_append, List.length_replicate,
          List.length_take, hns', hvl]
        have := hinv.len_le
        omega
      · intro hfalse
        cases hfalse

theorem stack_seq_of_set {α : Type} [Inhabited α] {c : Cfg} {s s' : StackS α}
    {v : α} (hinv : StackInv c s) (hlt : s.len < s.size)
    (hlen : s'.len = s.len + 1)
    (hvals : s'.values = s.values.set s.len v) : s'.seq = s.seq ++ [v] := by
  unfold StackS.seq
  rw [hlen, hvals]
  exact set_take_succ _ _ (by rw [stack_values_len hinv]; exact hlt) v

theorem stack_write_char {α : Type} [Inhabited α] {c : Cfg} {s1 : StackS α}
    (hinv1 : StackInv c s1) (hlt1 : s1.len < s1.size) (v : α) :
    StackS.seq { StackS.store s1 s1.len v with
        len := (StackS.store s1 s1.len v).len + 1 } = s1.seq ++ [v] ∧
    StackInv c { StackS.store s1 s1.len v with
        len := (StackS.store s1 s1.len v).len + 1 } ∧
    (StackS.store s1 s1.len v).len + 1 = s1.len + 1 := by
  obtain ⟨hsl, hss, hsi, hsv, hsb1, hsb2⟩ := stack_store_proj s1 s1.len v
  refine ⟨?_, ?_, by rw [hsl]⟩
  · exact stack_seq_of_set hinv1 hlt1 (congrArg (· + 1) hsl) hsv
  · exact stack_inv_transfer hinv1 hss hsi hsb1 hsb2
      (by rw [show ({ StackS.store s1 s1.len v with
          len := (StackS.store s1 s1.len v).len + 1 } : StackS α).len =
          (StackS.store s1 s1.len v).len + 1 from rfl, hsl]; omega)

theorem stack_push_true_char {α : Type} [Inhabited α] {c : Cfg} {ok : Bool}
    {s s' : StackS α} {v : α} (hwf : c.wf) (hinv : StackInv c s)
    (h : stack_push c ok s v = (true, s')) :
    s'.seq = s.seq ++ [v] ∧ StackInv c s' ∧ s'.len = s.len + 1 := by
  unfold stack_push at h
  by_cases hfull : s.len = s.size
  · rw [if_pos (by simp [stack_full, hfull])] at h
    rcases hr : stack_resize c ok s with ⟨b, s1⟩
    rw [hr] at h
    cases b
    · exact absurd h (by simp)
    · simp only [Prod.mk.injEq, true_and] at h
      obtain ⟨-, -, hsz1, hlen1, -, -, hinv1, hseq1⟩ :=
        stack_resize_true_char hwf hinv hr
      have hgf : 1 < c.growth_factor := hwf.2.2.2.1
      have hszpos : 0 < s.size := by
        have := hinv.size_lb
        have := hwf.1
        omega
      have hlt1 : s1.len < s1.size := by
        rw [hlen1, hsz1, hfull]
        calc s.size = s.size * 1 := by ring
          _ < s.size * c.growth_factor := by
              exact Nat.mul_lt_mul_of_le_of_lt (le_refl _) hgf hszpos
      obtain ⟨hwseq, hwinv, hwlen⟩ := stack_write_char hinv1 hlt1 v
      subst h
      exact ⟨hwseq.trans (by rw [hseq1]), hwinv, by rw [hwlen, hlen1]⟩
  · rw [if_neg (by simp [stack_full, hfull])] at h
    simp only [Prod.mk.injEq, true_and] at h
    have hlt : s.len < s.size := Nat.lt_of_le_of_ne hinv.len_le hfull
    obtain ⟨hwseq, hwinv, hwlen⟩ := stack_write_char hinv hlt v
    subst h
    exact ⟨hwseq, hwinv, hwlen⟩

theorem stack_push_succeeds {α : Type} [Inhabited α] {c : Cfg} {s : StackS α}
    (hwf : c.wf) (hinv : StackInv c s) (v : α)
    (hok : s.len = s.size → s.size * c.growth_factor ≤ c.lenMax) :
    (stack_push c true s v).1 = true := by
  unfold stack_push
  by_cases hfull : s.len = s.size
  · rw [if_pos (by simp [stack_full, hfull])]
    rcases hr : stack_resize c true s with ⟨b, s1⟩
    have hb : b = true := by
      have hs := stack_resize_succeeds hwf (hok hfull) (s := s)
      rw [hr] at hs
      exact hs
    subst hb
    simp
  · rw [if_neg (by simp [stack_full, hfull])]

theorem stack_push_false {α : Type} [Inhabited α] {c : Cfg} {ok : Bool}
    {s s' : StackS α} {v : α}
    (h : stack_push c ok s v = (false, s')) : s' = s := by
  unfold stack_push at h
  by_cases hfull : s.len = s.size
  · rw [if_pos (by simp [stack_full, hfull])] at h
    rcases hr : stack_resize c ok s with ⟨b, s1⟩
    rw [hr] at h
    cases b
    · rcases stack_resize_cases c ok s with hc | hc
      · rw [hr] at hc
        simp only [Prod.mk.injEq] at h hc
        rw [h.2.symm, hc.2]
      · rw [hr] at hc
        simp at hc
    · exact absurd h (by simp)
  · rw [if_neg (by simp [stack_full, hfull])] at h
    exact absurd h (by simp)

theorem stack_resize_inv {α : Type} [Inhabited α] {c : Cfg} {s : StackS α}
    (hwf : c.wf) (hinv : StackInv c s) (ok : Bool) :
    StackInv c (stack_resize c ok s).2 := by
  rcases hr : stack_resize c ok s with ⟨b, s1⟩
  cases b
  · rcases stack_resize_cases c ok s with h | h
    · rw [hr] at h
      simp only [Prod.mk.injEq] at h
      rw [h.2]
      exact hinv
    · rw [hr] at h
      simp at h
  · exact (stack_resize_true_char hwf hinv hr).2.2.2.2.2.2.1

theorem stack_push_inv {α : Type} [Inhabited α] {c : Cfg} {s : StackS α}
    (hwf : c.wf) (hinv : StackInv c s) (ok : Bool) (v : α) :
    StackInv c (stack_push c ok s v).2 := by
  rcases he : stack_push c ok s v with ⟨b, s'⟩
  cases b
  · rw [stack_push_false he]
    exact hinv
  · exact (stack_push_true_char hwf hinv he).2.1

theorem stack_pop_inv {α : Type} {c : Cfg} {s : StackS α}
    (hinv : StackInv c s) : StackInv c (stack_pop s).2 := by
  unfold stack_pop stack_empty
  by_cases h : s.len = 0
  · simp only [h, beq_self_eq_true, if_pos]
    exact hinv
  · simp only [beq_iff_eq, h, if_neg, if_false]
    exact stack_inv_transfer hinv rfl rfl rfl rfl
      (le_trans (Nat.sub_le _ _) hinv.len_le)

theorem stack_clear_inv {α : Type} {c : Cfg} {s : StackS α}
    (hinv : StackInv c s) : StackInv c (stack_clear s) :=
  stack_inv_transfer hinv rfl rfl rfl rfl (Nat.zero_le _)

theorem stack_delete_inv {α : Type} {c : Cfg} {s : StackS α}
    (hwf : c.wf) (hinv : StackInv c s) : StackInv c (stack_delete c s) := by
  unfold stack_delete stack_clear
  by_cases h : s.in_heap = true
  · simp only [h, if_pos]
    refine ⟨hwf.2.2.1, le_refl _, Cfg.init_le_lenMax hwf, Nat.zero_le _,
      hinv.inline_len, (fun hfalse => nomatch hfalse), fun _ => rfl⟩
  · have h' : s.in_heap = false := by
      cases hq : s.in_heap
      · rfl
      · exact absurd hq h
    simp only [h', Bool.false_eq_true, if_neg, if_false]
    exact stack_inv_transfer hinv rfl h'.symm rfl rfl (Nat.zero_le _)

theorem stack_init_inv {α : Type} {c : Cfg} {s : StackS α}
    (hwf : c.wf) (hlen : s.inline_buffer.length = c.init_size) :
    StackInv c (stack_init c s) :=
  ⟨hwf.2.2.1, le_refl _, Cfg.init_le_lenMax hwf, Nat.zero_le _, hlen,
    (fun hfalse => nomatch hfalse), fun _ => rfl⟩

theorem stack_reverse_inv {α : Type} [Inhabited α] {c : Cfg} {s : StackS α}
    (hinv : StackInv c s) : StackInv c (stack_reverse s) := by
  unfold stack_reverse
  by_cases h : s.len < 2
  · rw [if_pos h]
    exact hinv
  · rw [if_neg h]
    exact foldl_preserve (StackInv c) _
      (fun t i ht => stack_store_inv (stack_store_inv ht _ _) _ _) _ _ hinv

theorem stack_step_inv {α : Type} [Inhabited α] {c : Cfg} {s : StackS α}
    (hwf : c.wf) (hinv : StackInv c s) (op : StackOp α) :
    StackInv c (stack_step c s op) := by
  cases op with
  | op_init => exact stack_init_inv hwf hinv.inline_len
  | op_resize ok => exact stack_resize_inv hwf hinv ok
  | op_clear => exact stack_clear_inv hinv
  | op_delete => exact stack_delete_inv hwf hinv
  | op_push ok v => exact stack_push_inv hwf hinv ok v
  | op_pop => exact stack_pop_inv hinv
  | op_peek => exact hinv
  | op_reverse => exact stack_reverse_inv hinv

theorem stack_run_inv {α : Type} [Inhabited α] {c : Cfg} {s : StackS α}
    (hwf : c.wf) (hinv : StackInv c s) (ops : List (StackOp α)) :
    StackInv c (stack_run c s ops) :=
  foldl_preserve (StackInv c) _ (fun t op ht => stack_step_inv hwf ht op)
    ops s hinv

theorem stack_seq_length {α : Type} {c : Cfg} {s : StackS α}
    (hinv : StackInv c s) : s.seq.length = s.len := by
  unfold StackS.seq
  rw [List.length_take, stack_values_len hinv]
  have := hinv.len_le
  omega

theorem stack_pushAll_char {α : Type} [Inhabited α] {c : Cfg} :
    ∀ (l : List (Bool × α)) (s s' : StackS α), c.wf → StackInv c s →
      stack_pushAll c s l = some s' →
      StackInv c s' ∧ s'.seq = s.seq ++ l.map Prod.snd ∧
      s'.len = s.len + l.length := by
  intro l
  induction l with
  | nil =>
    intro s s' hwf hinv h
    simp only [stack_pushAll, Option.some.injEq] at h
    subst h
    simp [hinv]
  | cons p rest ih =>
    rcases p with ⟨ok, v⟩
    intro s s' hwf hinv h
    unfold stack_pushAll at h
    rcases hp : stack_push c ok s v with ⟨b, s1⟩
    rw [hp] at h
    cases b
    · exact absurd h (by simp)
    · simp only at h
      obtain ⟨hseq1, hinv1, hlen1⟩ := stack_push_true_char hwf hinv hp
      obtain ⟨hinv', hseq', hlen'⟩ := ih s1 s' hwf hinv1 h
      refine ⟨hinv', ?_, ?_⟩
      · rw [hseq', hseq1]
        simp
      · rw [hlen', hlen1]
        simp
        omega

theorem stack_observe_eq {α : Type} [Inhabited α] {c : Cfg} :
    ∀ (vs L : List α) (s : StackS α), StackInv c s → s.seq = L ++ vs →
      stack_observe vs.length s = vs.reverse := by
  intro vs
  induction vs using List.reverseRecOn with
  | nil =>
    intro L s hinv hseq
    simp [stack_observe]
  | append_singleton vs' v ih =>
    intro L s hinv hseq
    have hvl := stack_values_len hinv
    have hsl := stack_seq_length hinv
    have hlen : s.len = L.length + vs'.length + 1 := by
      rw [← hsl, hseq]
      simp
      omega
    have hpeek : stack_peek s = v := by
      unfold stack_peek
      have h1 : s.seq.getD (s.len - 1) default = v := by
        rw [hseq, hlen]
        rw [show L.length + vs'.length + 1 - 1 = (L ++ vs').length by simp,
          show L ++ (vs' ++ [v]) = (L ++ vs') ++ [v] by simp,
          List.getD_append_right _ _ _ _ (le_refl _)]
        simp
      rw [← h1]
      unfold StackS.seq
      rw [getD_take _ (by omega)]
    have hpop : (stack_pop s).2 = { s with len := s.len - 1 } := by
      unfold stack_pop stack_empty
      rw [if_neg (by simp; omega)]
    have hpinv : StackInv c { s with len := s.len - 1 } :=
      stack_inv_transfer hinv rfl rfl rfl rfl
        (le_trans (Nat.sub_le _ _) hinv.len_le)
    have hpseq : StackS.seq { s with len := s.len - 1 } = L ++ vs' := by
      unfold StackS.seq
      show s.values.take (s.len - 1) = L ++ vs'
      have h2 : s.values.take (s.len - 1) = s.seq.take (s.len - 1) := by
        unfold StackS.seq
        rw [List.take_take, Nat.min_eq_left (by omega)]
      rw [h2, hseq, hlen]
      rw [show L.length + vs'.length + 1 - 1 = (L ++ vs').length by simp]
      rw [show L ++ (vs' ++ [v]) = (L ++ vs') ++ [v] by simp]
      rw [List.take_left]
    have hstep : stack_observe (vs' ++ [v]).length s =
        stack_peek s :: stack_observe vs'.length (stack_pop s).2 := by
      rw [List.length_append, List.length_singleton]
      rfl
    rw [hstep, hpeek, hpop, ih L _ hpinv hpseq]
    simp

theorem deque_resize_guard_fail {α : Type} [Inhabited α] (c : Cfg) (ok : Bool)
    (q : DequeS α) (h : c.lenMax / c.growth_factor < q.size) :
    deque_resize c ok q = (false, q) := by
  unfold deque_resize
  rw [if_pos h]

theorem deque_resize_alloc_fail {α : Type} [Inhabited α] (c : Cfg) (q : DequeS α) :
    deque_resize c false q = (false, q) := by
  unfold deque_resize
  split
  · rfl
  · split <;> simp_all

theorem deque_resize_eq_heap_flat {α : Type} [Inhabited α] {c : Cfg} {q : DequeS α}
    (hg : ¬ c.lenMax / c.growth_factor < q.size)
    (hnw : q.front + q.len ≤ q.size) (hh : q.in_heap = true) :
    deque_resize c true q =
      (true, { q with
        heap_buffer := q.heap_buffer ++
          List.replicate (q.size * c.growth_factor % 2 ^ c.w - q.size) default,
        size := q.size * c.growth_factor % 2 ^ c.w }) := by
  unfold deque_resize
  rw [if_neg hg]
  simp [hh, hnw]

theorem deque_resize_eq_inline_flat {α : Type} [Inhabited α] {c : Cfg} {q : DequeS α}
    (hg : ¬ c.lenMax / c.growth_factor < q.size)
    (hnw : q.front + q.len ≤ q.size) (hh : q.in_heap = false) :
    deque_resize c true q =
      (true, { q with
        heap_buffer := memCopy
          (List.replicate (q.size * c.growth_factor % 2 ^ c.w) default) 0
          (q.values.take q.len),
        in_heap := true, size := q.size * c.growth_factor % 2 ^ c.w }) := by
  unfold deque_resize
  rw [if_neg hg]
  simp [hh, hnw]

theorem deque_resize_eq_wrapped {α : Type} [Inhabited α] {c : Cfg} {q : DequeS α}
    (hg : ¬ c.lenMax / c.growth_factor < q.size)
    (hw : ¬ q.front + q.len ≤ q.size) :
    deque_resize c true q =
      (true, { q with
        heap_buffer := memCopy
          (memCopy (List.replicate (q.size * c.growth_factor % 2 ^ c.w) default) 0
            ((q.values.drop q.front).take (q.size - q.front)))
          (q.size - q.front) (q.values.take q.front),
        in_heap := true, size := q.size * c.growth_factor % 2 ^ c.w,
        front := 0 }) := by
  unfold deque_resize
  rw [if_neg hg]
  simp [hw]

theorem deque_values_len {α : Type} {c : Cfg} {q : DequeS α} (hinv : DequeInv c q) :
    q.values.length = q.size := by
  unfold DequeS.values
  cases hq : q.in_heap
  · rw [if_neg (by simp), hinv.inline_len, hinv.inline_size hq]
  · rw [if_pos rfl, hinv.heap_len hq]

theorem deque_values_read_heap {α : Type} (ib hb : List α) (h l n : Nat) :
    DequeS.values ⟨ib, hb, true, h, l, n⟩ = hb := rfl

theorem deque_seq_heap_flat {α : Type} [Inhabited α] {c : Cfg} {q : DequeS α}
    (hwf : c.wf) (hinv : DequeInv c q)
    (hnw : q.front + q.len ≤ q.size) (hh : q.in_heap = true)
    (hns : q.size * c.growth_factor ≤ c.lenMax) :
    DequeS.seq { q with
      heap_buffer := q.heap_buffer ++
        List.replicate (q.size * c.growth_factor % 2 ^ c.w - q.size) default,
      size := q.size * c.growth_factor % 2 ^ c.w } = q.seq := by
  have hsz : q.size ≤ q.size * c.growth_factor :=
    Nat.le_mul_of_pos_right _ (Cfg.gf_pos hwf)
  rw [Cfg.new_size_eq hwf hns]
  unfold DequeS.seq
  apply List.map_congr_left
  intro i hi
  simp only [List.mem_range] at hi
  have hlen : q.heap_buffer.length = q.size := hinv.heap_len hh
  have hi2 : q.front + i < q.size := by
    have := hinv.len_le
    omega
  simp only [DequeS.values, hh, if_pos]
  rw [mask_eq_mod (Cfg.mul_gf_pow hwf hinv.size_pow),
    mask_eq_mod hinv.size_pow,
    Nat.mod_eq_of_lt (lt_of_lt_of_le hi2 hsz), Nat.mod_eq_of_lt hi2,
    List.getD_append _ _ _ _ (by omega)]

theorem deque_seq_inline_flat0 {α : Type} [Inhabited α] {c : Cfg} {q : DequeS α}
    (hwf : c.wf) (hinv : DequeInv c q)
    (h0 : q.front = 0) (hns : q.size * c.growth_factor ≤ c.lenMax) :
    DequeS.seq { q with
      heap_buffer := memCopy
        (List.replicate (q.size * c.growth_factor % 2 ^ c.w) default) 0
        (q.values.take q.len),
      in_heap := true, size := q.size * c.growth_factor % 2 ^ c.w } = q.seq := by
  have hsz : q.size ≤ q.size * c.growth_factor :=
    Nat.le_mul_of_pos_right _ (Cfg.gf_pos hwf)
  have hvl : q.values.length = q.size := deque_values_len hinv
  have htl : (q.values.take q.len).length = q.len := by
    rw [List.length_take]
    have := hinv.len_le
    omega
  rw [Cfg.new_size_eq hwf hns, memCopy_zero, htl]
  unfold DequeS.seq
  apply List.map_congr_left
  intro i hi
  simp only [List.mem_range] at hi
  have hil : i < q.size := lt_of_lt_of_le hi hinv.len_le
  simp only [deque_values_read_heap]
  rw [mask_eq_mod (Cfg.mul_gf_pow hwf hinv.size_pow),
    mask_eq_mod hinv.size_pow, h0, Nat.zero_add,
    Nat.mod_eq_of_lt (lt_of_lt_of_le hil hsz), Nat.mod_eq_of_lt hil,
    List.getD_append _ _ _ _ (by rw [htl]; exact hi), getD_take _ hi]

theorem deque_seq_wrapped {α : Type} [Inhabited α] {c : Cfg} {q : DequeS α}
    (hwf : c.wf) (hinv : DequeInv c q)
    (hw : ¬ q.front + q.len ≤ q.size) (hns : q.size * c.growth_factor ≤ c.lenMax) :
    DequeS.seq { q with
      heap_buffer := memCopy
        (memCopy (List.replicate (q.size * c.growth_factor % 2 ^ c.w) default) 0
          ((q.values.drop q.front).take (q.size - q.front)))
        (q.size - q.front) (q.values.take q.front),
      in_heap := true, size := q.size * c.growth_factor % 2 ^ c.w,
      front := 0 } = q.seq := by
  have hsz : q.size ≤ q.size * c.growth_factor :=
    Nat.le_mul_of_pos_right _ (Cfg.gf_pos hwf)
  have hvl : q.values.length = q.size := deque_values_len hinv
  have hhd := hinv.front_lt
  have hc1 : ((q.values.drop q.front).take (q.size - q.front)).length = q.size - q.front := by
    simp [List.length_take, List.length_drop]
    omega
  have hc2 : (q.values.take q.front).length = q.front := by
    simp [List.length_take]
    omega
  rw [Cfg.new_size_eq hwf hns,
    memCopy_chunks _ _ _ _ _ hc1.symm (by rw [hc1, hc2]; omega)]
  unfold DequeS.seq
  apply List.map_congr_left
  intro i hi
  simp only [List.mem_range] at hi
  have hil : i < q.size := lt_of_lt_of_le hi hinv.len_le
  simp only [deque_values_read_heap]
  rw [mask_eq_mod (Cfg.mul_gf_pow hwf hinv.size_pow), mask_eq_mod hinv.size_pow,
    Nat.zero_add, Nat.mod_eq_of_lt (lt_of_lt_of_le hil hsz)]
  have hll := hinv.len_le
  rcases Nat.lt_or_ge i (q.size - q.front) with hcase | hcase
  · rw [List.getD_append _ _ _ _ (by rw [List.length_append, hc1, hc2]; omega),
      List.getD_append _ _ _ _ (by rw [hc1]; exact hcase),
      getD_take _ hcase, getD_drop,
      Nat.mod_eq_of_lt (by omega)]
  · rw [List.getD_append _ _ _ _ (by rw [List.length_append, hc1, hc2]; omega),
      List.getD_append_right _ _ _ _ (by rw [hc1]; omega), hc1,
      getD_take _ (show i - (q.size - q.front) < q.front by omega),
      Nat.mod_eq_sub_mod (by omega), Nat.mod_eq_of_lt (by omega)]
    congr 1
    omega

theorem deque_resize_true_char {α : Type} [Inhabited α] {c : Cfg} {ok : Bool}
    {q q' : DequeS α} (hwf : c.wf) (hinv : DequeInv c q)
    (h : deque_resize c ok q = (true, q')) :
    ok = true ∧ q.size * c.growth_factor ≤ c.lenMax ∧
    q'.size = q.size * c.growth_factor ∧ q'.len = q.len ∧
    q'.inline_buffer = q.inline_buffer ∧ q'.in_heap = true ∧
    DequeInv c q' ∧
    (q.front + q.len ≤ q.size → q'.front = q.front) ∧
    (¬ q.front + q.len ≤ q.size → q'.front = 0) ∧
    ((¬ q.front + q.len ≤ q.size) ∨ q.in_heap = true ∨ q.front = 0 →
      q'.seq = q.seq) := by
  cases ok with
  | false => rw [deque_resize_alloc_fail] at h; exact absurd h (by simp)
  | true =>
    by_cases hg : c.lenMax / c.growth_factor < q.size
    · rw [deque_resize_guard_fail _ _ _ hg] at h
      exact absurd h (by simp)
    have hns : q.size * c.growth_factor ≤ c.lenMax :=
      le_of_not_lt (fun hlt => hg ((Cfg.guard_iff hwf q.size).mpr hlt))
    have hns' := Cfg.new_size_eq hwf hns
    have hsz : q.size ≤ q.size * c.growth_factor :=
      Nat.le_mul_of_pos_right _ (Cfg.gf_pos hwf)
    have hvl : q.values.length = q.size := deque_values_len hinv
    by_cases hnw : q.front + q.len ≤ q.size
    · by_cases hh : q.in_heap = true
      · rw [deque_resize_eq_heap_flat hg hnw hh] at h
        simp only [Prod.mk.injEq, true_and] at h
        subst h
        refine ⟨rfl, hns, by simp [hns'], rfl, rfl, hh, ?_, fun _ => rfl,
          fun hc => absurd hnw hc,
          fun _ => deque_seq_heap_flat hwf hinv hnw hh hns⟩
        refine ⟨?_, ?_, ?_, ?_, ?_, hinv.inline_len, ?_, ?_⟩
        · simp only [hns']
          exact Cfg.mul_gf_pow hwf hinv.size_pow
        · simp only [hns']
          exact le_trans hinv.size_lb hsz
        · simp only [hns']
          exact hns
        · simp only [hns']
          exact le_trans hinv.len_le hsz
        · simp only [hns']
          exact lt_of_lt_of_le hinv.front_lt hsz
        · intro _
          simp only [List.length_append, List.length_replicate, hns',
            hinv.heap_len hh]
          omega
        · intro hfalse
          rw [hh] at hfalse
          cases hfalse
      · have hh' : q.in_heap = false := by
          cases hq : q.in_heap
          · rfl
          · exact absurd hq hh
        rw [deque_resize_eq_inline_flat hg hnw hh'] at h
        simp only [Prod.mk.injEq, true_and] at h
        subst h
        refine ⟨rfl, hns, by simp [hns'], rfl, rfl, rfl, ?_, fun _ => rfl,
          fun hc => absurd hnw hc, ?_⟩
        · refine ⟨?_, ?_, ?_, ?_, ?_, hinv.inline_len, ?_, ?_⟩
          · simp only [hns']
            exact Cfg.mul_gf_pow hwf hinv.size_pow
          · simp only [hns']
            exact le_trans hinv.size_lb hsz
          · simp only [hns']
            exact hns
          · simp only [hns']
            exact le_trans hinv.len_le hsz
          · simp only [hns']
            exact lt_of_lt_of_le hinv.front_lt hsz
          · intro _
            simp only [memCopy_zero, List.length_append, List.length_replicate,
              List.length_take, hns', hvl]
            have := hinv.len_le
            omega
          · intro hfalse
            cases hfalse
        · rintro (hc | hc | hc)
          · exact absurd hnw hc
          · rw [hh'] at hc
            cases hc
          · exact deque_seq_inline_flat0 hwf hinv hc hns
    · rw [deque_resize_eq_wrapped hg hnw] at h
      simp only [Prod.mk.injEq, true_and] at h
      subst h
      have hhd := hinv.front_lt
      refine ⟨rfl, hns, by simp [hns'], rfl, rfl, rfl, ?_,
        fun hc => absurd hc hnw, fun _ => rfl,
        fun _ => deque_seq_wrapped hwf hinv hnw hns⟩
      refine ⟨?_, ?_, ?_, ?_, ?_, hinv.inline_len, ?_, ?_⟩
      · simp only [hns']
        exact Cfg.mul_gf_pow hwf hinv.size_pow
      · simp only [hns']
        exact le_trans hinv.size_lb hsz
      · simp only [hns']
        exact hns
      · simp only [hns']
        exact le_trans hinv.len_le hsz
      · simp only [hns']
        have h2 := hwf.1
        have h3 := hinv.size_lb
        omega
      · intro _
        have hc1 : ((q.values.drop q.front).take (q.size - q.front)).length =
            q.size - q.front := by
          simp [List.length_take, List.length_drop]
          omega
        have hc2 : (q.values.take q.front).length = q.front := by
          simp [List.length_take]
          omega
        rw [memCopy_chunks _ _ _ _ _ hc1.symm (by rw [hc1, hc2]; omega)]
        simp only [List.length_append, List.length_replicate, hc1, hc2, hns']
        omega
      · intro hfalse
        cases hfalse

theorem deque_resize_cases {α : Type} [Inhabited α] (c : Cfg) (ok : Bool)
    (q : DequeS α) :
    deque_resize c ok q = (false, q) ∨ (deque_resize c ok q).1 = true := by
  unfold deque_resize
  by_cases hg : c.lenMax / c.growth_factor < q.size
  · rw [if_pos hg]
    left
    rfl
  · rw [if_neg hg]
    cases ok <;> by_cases hnw : q.front + q.len ≤ q.size <;>
      by_cases hh : q.in_heap = true <;> simp [hnw, hh]

theorem deque_resize_succeeds {α : Type} [Inhabited α] {c : Cfg} {q : DequeS α}
    (hwf : c.wf) (hg : q.size * c.growth_factor ≤ c.lenMax) :
    (deque_resize c true q).1 = true := by
  unfold deque_resize
  rw [if_neg (by rw [Cfg.guard_iff hwf]; omega)]
  by_cases hnw : q.front + q.len ≤ q.size <;>
    by_cases hh : q.in_heap = true <;> simp [hnw, hh]

theorem deque_store_proj {α : Type} (q : DequeS α) (i : Nat) (v : α) :
    (q.store i v).len = q.len ∧ (q.store i v).front = q.front ∧
    (q.store i v).size = q.size ∧ (q.store i v).in_heap = q.in_heap ∧
    (q.store i v).values = q.values.set i v ∧
    (q.store i v).inline_buffer.length = q.inline_buffer.length ∧
    (q.store i v).heap_buffer.length = q.heap_buffer.length := by
  unfold DequeS.store DequeS.values
  cases q.in_heap <;> simp

theorem deque_inv_transfer {α : Type} {c : Cfg} {q q' : DequeS α}
    (hinv : DequeInv c q)
    (hsize : q'.size = q.size) (hih : q'.in_heap = q.in_heap)
    (hibl : q'.inline_buffer.length = q.inline_buffer.length)
    (hhbl : q'.heap_buffer.length = q.heap_buffer.length)
    (hlen : q'.len ≤ q.size) (hhead : q'.front < q.size) : DequeInv c q' := by
  refine ⟨hsize ▸ hinv.size_pow, hsize ▸ hinv.size_lb, hsize ▸ hinv.size_ub,
    hsize ▸ hlen, hsize ▸ hhead, hibl.trans hinv.inline_len, ?_, ?_⟩
  · intro hh
    rw [hhbl, hsize, hinv.heap_len (hih ▸ hh)]
  · intro hh
    rw [hsize, hinv.inline_size (hih ▸ hh)]

theorem deque_store_inv {α : Type} {c : Cfg} {q : DequeS α}
    (hinv : DequeInv c q) (i : Nat) (v : α) : DequeInv c (q.store i v) := by
  obtain ⟨h1, h2, h3, h4, h5, h6, h7⟩ := deque_store_proj q i v
  exact deque_inv_transfer hinv h3 h4 h6 h7 (h1 ▸ hinv.len_le) (h2 ▸ hinv.front_lt)

theorem deque_seq_of_set {α : Type} [Inhabited α] {c : Cfg} {q q' : DequeS α}
    {v : α} (hinv : DequeInv c q) (hlt : q.len < q.size)
    (hlen : q'.len = q.len + 1) (hhead : q'.front = q.front)
    (hsize : q'.size = q.size) (hih : q'.in_heap = q.in_heap)
    (hvals : q'.values = q.values.set ((q.front + q.len) &&& (q.size - 1)) v) :
    q'.seq = q.seq ++ [v] := by
  have hvl : q.values.length = q.size := deque_values_len hinv
  have hszpos : 0 < q.size := Nat.lt_of_le_of_lt (Nat.zero_le _) hlt
  have hmask : (q.front + q.len) &&& (q.size - 1) = (q.front + q.len) % q.size :=
    mask_eq_mod hinv.size_pow _
  unfold DequeS.seq
  rw [hlen, hhead, hsize, hvals, hmask, List.range_succ, List.map_append]
  congr 1
  · apply List.map_congr_left
    intro i hi
    simp only [List.mem_range] at hi
    rw [mask_eq_mod hinv.size_pow]
    apply getD_set_ne
    intro hc
    have hle : q.len = i := mod_add_cancel (by omega) (by omega) hc
    omega
  · simp only [List.map_cons, List.map_nil]
    rw [mask_eq_mod hinv.size_pow]
    rw [getD_set_self _ _ _ (by rw [hvl]; exact Nat.mod_lt _ hszpos)]

theorem deque_write_char {α : Type} [Inhabited α] {c : Cfg} {q1 : DequeS α}
    (hinv1 : DequeInv c q1) (hlt1 : q1.len < q1.size) (v : α) :
    DequeS.seq { DequeS.store q1 ((q1.front + q1.len) &&& (q1.size - 1)) v with
        len := (DequeS.store q1 ((q1.front + q1.len) &&& (q1.size - 1)) v).len + 1 } =
      q1.seq ++ [v] ∧
    DequeInv c { DequeS.store q1 ((q1.front + q1.len) &&& (q1.size - 1)) v with
        len := (DequeS.store q1 ((q1.front + q1.len) &&& (q1.size - 1)) v).len + 1 } ∧
    (DequeS.store q1 ((q1.front + q1.len) &&& (q1.size - 1)) v).len + 1 =
      q1.len + 1 := by
  obtain ⟨hsl, hsh, hss, hsi, hsv, hsb1, hsb2⟩ :=
    deque_store_proj q1 ((q1.front + q1.len) &&& (q1.size - 1)) v
  refine ⟨?_, ?_, by rw [hsl]⟩
  · exact deque_seq_of_set hinv1 hlt1 (congrArg (· + 1) hsl) hsh hss hsi hsv
  · exact deque_inv_transfer hinv1 hss hsi hsb1 hsb2
      (by rw [show ({ DequeS.store q1 ((q1.front + q1.len) &&& (q1.size - 1)) v with
          len := (DequeS.store q1 ((q1.front + q1.len) &&& (q1.size - 1)) v).len + 1 }
          : DequeS α).len =
          (DequeS.store q1 ((q1.front + q1.len) &&& (q1.size - 1)) v).len + 1 from rfl,
        hsl]; omega)
      (by have hhl := hinv1.front_lt
          rw [← hsh] at hhl
          exact hhl)

theorem deque_insert_back_true_char {α : Type} [Inhabited α] {c : Cfg} {ok : Bool}
    {q q' : DequeS α} {v : α} (hwf : c.wf) (hinv : DequeInv c q)
    (h : deque_insert_back c ok q v = (true, q')) :
    q'.seq = q.seq ++ [v] ∧ DequeInv c q' ∧ q'.len = q.len + 1 := by
  unfold deque_insert_back at h
  by_cases hfull : q.len = q.size
  · rw [if_pos (by simp [deque_full, hfull])] at h
    rcases hr : deque_resize c ok q with ⟨b, q1⟩
    rw [hr] at h
    cases b
    · exact absurd h (by simp)
    · simp only [Prod.mk.injEq, true_and] at h
      obtain ⟨-, -, hsz1, hlen1, -, -, hinv1, -, -, hseq1⟩ :=
        deque_resize_true_char hwf hinv hr
      have hseq : q1.seq = q.seq := by
        apply hseq1
        by_cases hnw : q.front + q.len ≤ q.size
        · right; right
          have := hinv.front_lt
          omega
        · left; exact hnw
      have hgf : 1 < c.growth_factor := hwf.2.2.2.1
      have hszpos : 0 < q.size := by
        have := hinv.size_lb
        have := hwf.1
        omega
      have hlt1 : q1.len < q1.size := by
        rw [hlen1, hsz1, hfull]
        calc q.size = q.size * 1 := by ring
          _ < q.size * c.growth_factor := by
              exact Nat.mul_lt_mul_of_le_of_lt (le_refl _) hgf hszpos
      obtain ⟨hwseq, hwinv, hwlen⟩ := deque_write_char hinv1 hlt1 v
      subst h
      exact ⟨hwseq.trans (by rw [hseq]), hwinv, by rw [hwlen, hlen1]⟩
  · rw [if_neg (by simp [deque_full, hfull])] at h
    simp only [Prod.mk.injEq, true_and] at h
    have hlt : q.len < q.size := Nat.lt_of_le_of_ne hinv.len_le hfull
    obtain ⟨hwseq, hwinv, hwlen⟩ := deque_write_char hinv hlt v
    subst h
    exact ⟨hwseq, hwinv, hwlen⟩

theorem deque_insert_back_succeeds {α : Type} [Inhabited α] {c : Cfg} {q : DequeS α}
    (hwf : c.wf) (hinv : DequeInv c q) (v : α)
    (hok : q.len = q.size → q.size * c.growth_factor ≤ c.lenMax) :
    (deque_insert_back c true q v).1 = true := by
  unfold deque_insert_back
  by_cases hfull : q.len = q.size
  · rw [if_pos (by simp [deque_full, hfull])]
    rcases hr : deque_resize c true q with ⟨b, q1⟩
    have hb : b = true := by
      have hs := deque_resize_succeeds hwf (hok hfull) (q := q)
      rw [hr] at hs
      exact hs
    subst hb
    simp
  · rw [if_neg (by simp [deque_full, hfull])]

theorem deque_insert_back_false {α : Type} [Inhabited α] {c : Cfg} {ok : Bool}
    {q q' : DequeS α} {v : α}
    (h : deque_insert_back c ok q v = (false, q')) : q' = q := by
  unfold deque_insert_back at h
  by_cases hfull : q.len = q.size
  · rw [if_pos (by simp [deque_full, hfull])] at h
    rcases hr : deque_resize c ok q with ⟨b, q1⟩
    rw [hr] at h
    cases b
    · rcases deque_resize_cases c ok q with hc | hc
      · rw [hr] at hc
        simp only [Prod.mk.injEq] at h hc
        rw [h.2.symm, hc.2]
      · rw [hr] at hc
        simp at hc
    · exact absurd h (by simp)
  · rw [if_neg (by simp [deque_full, hfull])] at h
    exact absurd h (by simp)

theorem deque_resize_inv {α : Type} [Inhabited α] {c : Cfg} {q : DequeS α}
    (hwf : c.wf) (hinv : DequeInv c q) (ok : Bool) :
    DequeInv c (deque_resize c ok q).2 := by
  rcases hr : deque_resize c ok q with ⟨b, q1⟩
  cases b
  · rcases deque_resize_cases c ok q with h | h
    · rw [hr] at h
      simp only [Prod.mk.injEq] at h
      rw [h.2]
      exact hinv
    · rw [hr] at h
      simp at h
  · exact (deque_resize_true_char hwf hinv hr).2.2.2.2.2.2.1

theorem deque_insert_back_inv {α : Type} [Inhabited α] {c : Cfg} {q : DequeS α}
    (hwf : c.wf) (hinv : DequeInv c q) (ok : Bool) (v : α) :
    DequeInv c (deque_insert_back c ok q v).2 := by
  rcases he : deque_insert_back c ok q v with ⟨b, q'⟩
  cases b
  · rw [deque_insert_back_false he]
    exact hinv
  · exact (deque_insert_back_true_char hwf hinv he).2.1

theorem deque_size_pos {α : Type} {c : Cfg} {q : DequeS α}
    (hwf : c.wf) (hinv : DequeInv c q) : 0 < q.size := by
  have h1 := hinv.size_lb
  have h2 := hwf.1
  omega

theorem deque_remove_front_inv {α : Type} {c : Cfg} {q : DequeS α}
    (hwf : c.wf) (hinv : DequeInv c q) : DequeInv c (deque_remove_front q).2 := by
  unfold deque_remove_front deque_empty
  by_cases h : q.len = 0
  · simp only [h, beq_self_eq_true, if_pos]
    exact hinv
  · simp only [beq_iff_eq, h, if_neg, if_false]
    refine deque_inv_transfer hinv rfl rfl rfl rfl
      (le_trans (Nat.sub_le _ _) hinv.len_le) ?_
    rw [mask_eq_mod hinv.size_pow]
    exact Nat.mod_lt _ (deque_size_pos hwf hinv)

theorem deque_delete_inv {α : Type} {c : Cfg} {q : DequeS α}
    (hwf : c.wf) (hinv : DequeInv c q) : DequeInv c (deque_delete c q) := by
  unfold deque_delete deque_clear
  by_cases h : q.in_heap = true
  · simp only [h, if_pos]
    refine ⟨hwf.2.2.1, le_refl _, Cfg.init_le_lenMax hwf, Nat.zero_le _,
      show 0 < c.init_size by have := hwf.1; omega, hinv.inline_len,
      ?_, fun _ => rfl⟩
    intro hfalse
    cases hfalse
  · have h' : q.in_heap = false := by
      cases hq : q.in_heap
      · rfl
      · exact absurd hq h
    simp only [h', Bool.false_eq_true, if_neg, if_false]
    exact deque_inv_transfer hinv rfl h'.symm rfl rfl (Nat.zero_le _)
      (deque_size_pos hwf hinv)

theorem deque_init_inv {α : Type} {c : Cfg} {q : DequeS α}
    (hwf : c.wf) (hlen : q.inline_buffer.length = c.init_size) :
    DequeInv c (deque_init c q) := by
  refine ⟨hwf.2.2.1, le_refl _, Cfg.init_le_lenMax hwf, Nat.zero_le _, ?_,
    hlen, (fun hfalse => nomatch hfalse), fun _ => rfl⟩
  show 0 < c.init_size
  have := hwf.1
  omega


theorem getD_map_range {α : Type} (f : Nat → α) {n i : Nat} (h : i < n) (d : α) :
    ((List.range n).map f).getD i d = f i := by
  simp [List.getD, List.getElem?_map, List.getElem?_range h]

theorem deque_seq_length {α : Type} [Inhabited α] (d : DequeS α) :
    d.seq.length = d.len := by
  simp [DequeS.seq]

theorem deque_clear_inv {α : Type} {c : Cfg} {d : DequeS α}
    (hinv : DequeInv c d) : DequeInv c (deque_clear d) :=
  deque_inv_transfer hinv rfl rfl rfl rfl (Nat.zero_le _) hinv.front_lt

theorem deque_remove_back_inv {α : Type} {c : Cfg} {d : DequeS α}
    (hinv : DequeInv c d) : DequeInv c (deque_remove_back d).2 := by
  unfold deque_remove_back deque_empty
  by_cases h : d.len = 0
  · simp only [h, beq_self_eq_true, if_pos]
    exact hinv
  · simp only [beq_iff_eq, h, if_neg, if_false]
    exact deque_inv_transfer hinv rfl rfl rfl rfl
      (le_trans (Nat.sub_le _ _) hinv.len_le) hinv.front_lt

theorem deque_seq_of_front_set {α : Type} [Inhabited α] {c : Cfg}
    {d d' : DequeS α} {v : α} (hinv : DequeInv c d) (hlt : d.len < d.size)
    (hlen : d'.len = d.len + 1)
    (hfront : d'.front = (d.front + d.size - 1) &&& (d.size - 1))
    (hsize : d'.size = d.size)
    (hvals : d'.values = d.values.set ((d.front + d.size - 1) &&& (d.size - 1)) v) :
    d'.seq = v :: d.seq := by
  have hvl := deque_values_len hinv
  have hszpos : 0 < d.size := lt_of_le_of_lt (Nat.zero_le _) hlt
  have hm : (d.front + d.size - 1) &&& (d.size - 1) =
      (d.front + d.size - 1) % d.size := mask_eq_mod hinv.size_pow _
  have hmlt : (d.front + d.size - 1) % d.size < d.size := Nat.mod_lt _ hszpos
  unfold DequeS.seq
  rw [hlen, hfront, hsize, hvals, hm, List.range_succ_eq_map, List.map_cons,
    List.map_map]
  congr 1
  · rw [mask_eq_mod hinv.size_pow, Nat.add_zero,
      Nat.mod_eq_of_lt hmlt]
    exact getD_set_self _ _ _ (by rw [hvl]; exact hmlt)
  · apply List.map_congr_left
    intro i hi
    simp only [List.mem_range] at hi
    simp only [Function.comp, Nat.succ_eq_add_one]
    rw [mask_eq_mod hinv.size_pow, mask_eq_mod hinv.size_pow]
    have hidx : ((d.front + d.size - 1) % d.size + (i + 1)) % d.size
        = (d.front + i) % d.size := by
      rw [Nat.mod_add_mod]
      rw [show d.front + d.size - 1 + (i + 1) = d.front + i + d.size by omega]
      rw [Nat.add_mod_right]
    rw [hidx]
    apply getD_set_ne
    rw [show d.front + d.size - 1 = d.front + (d.size - 1) by omega]
    intro hc
    have heq : d.size - 1 = i :=
      mod_add_cancel (by omega) (by omega) hc
    omega

theorem deque_front_write_char {α : Type} [Inhabited α] {c : Cfg}
    {d1 : DequeS α} (hinv1 : DequeInv c d1) (hlt1 : d1.len < d1.size) (v : α) :
    DequeS.seq (DequeS.store
      { d1 with
        len := d1.len + 1
        front := (d1.front + d1.size - 1) &&& (d1.size - 1) }
      ((d1.front + d1.size - 1) &&& (d1.size - 1)) v) = v :: d1.seq ∧
    DequeInv c (DequeS.store
      { d1 with
        len := d1.len + 1
        front := (d1.front + d1.size - 1) &&& (d1.size - 1) }
      ((d1.front + d1.size - 1) &&& (d1.size - 1)) v) ∧
    (DequeS.store
      { d1 with
        len := d1.len + 1
        front := (d1.front + d1.size - 1) &&& (d1.size - 1) }
      ((d1.front + d1.size - 1) &&& (d1.size - 1)) v).len = d1.len + 1 := by
  have hszpos : 0 < d1.size := lt_of_le_of_lt (Nat.zero_le _) hlt1
  have hmlt : (d1.front + d1.size - 1) &&& (d1.size - 1) < d1.size := by
    rw [mask_eq_mod hinv1.size_pow]
    exact Nat.mod_lt _ hszpos
  obtain ⟨hsl, hsh, hss, hsi, hsv, hsb1, hsb2⟩ :=
    deque_store_proj
      { d1 with
        len := d1.len + 1
        front := (d1.front + d1.size - 1) &&& (d1.size - 1) }
      ((d1.front + d1.size - 1) &&& (d1.size - 1)) v
  refine ⟨?_, ?_, hsl⟩
  · exact deque_seq_of_front_set hinv1 hlt1 hsl hsh hss hsv
  · exact deque_inv_transfer hinv1 hss hsi hsb1 hsb2
      (by rw [hsl]
          show d1.len + 1 ≤ d1.size
          omega)
      (by rw [hsh]
          exact hmlt)

theorem deque_insert_front_true_char {α : Type} [Inhabited α] {c : Cfg}
    {ok : Bool} {d d' : DequeS α} {v : α} (hwf : c.wf) (hinv : DequeInv c d)
    (h : deque_insert_front c ok d v = (true, d')) :
    d'.seq = v :: d.seq ∧ DequeInv c d' ∧ d'.len = d.len + 1 := by
  unfold deque_insert_front at h
  by_cases hfull : d.len = d.size
  · rw [if_pos (by simp [deque_full, hfull])] at h
    rcases hr : deque_resize c ok d with ⟨b, d1⟩
    rw [hr] at h
    cases b
    · exact absurd h (by simp)
    · simp only [Prod.mk.injEq, true_and] at h
      obtain ⟨-, -, hsz1, hlen1, -, -, hinv1, -, -, hseq1⟩ :=
        deque_resize_true_char hwf hinv hr
      have hseq : d1.seq = d.seq := by
        apply hseq1
        by_cases hnw : d.front + d.len ≤ d.size
        · right; right
          have := hinv.front_lt
          omega
        · left; exact hnw
      have hgf : 1 < c.growth_factor := hwf.2.2.2.1
      have hszpos : 0 < d.size := by
        have := hinv.size_lb
        have := hwf.1
        omega
      have hlt1 : d1.len < d1.size := by
        rw [hlen1, hsz1, hfull]
        calc d.size = d.size * 1 := by ring
          _ < d.size * c.growth_factor := by
              exact Nat.mul_lt_mul_of_le_of_lt (le_refl _) hgf hszpos
      obtain ⟨hwseq, hwinv, hwlen⟩ := deque_front_write_char hinv1 hlt1 v
      subst h
      exact ⟨hwseq.trans (by rw [hseq]), hwinv, by rw [hwlen, hlen1]⟩
  · rw [if_neg (by simp [deque_full, hfull])] at h
    simp only [Prod.mk.injEq, true_and] at h
    have hlt : d.len < d.size := Nat.lt_of_le_of_ne hinv.len_le hfull
    obtain ⟨hwseq, hwinv, hwlen⟩ := deque_front_write_char hinv hlt v
    subst h
    exact ⟨hwseq, hwinv, hwlen⟩

theorem deque_insert_front_succeeds {α : Type} [Inhabited α] {c : Cfg}
    {d : DequeS α} (hwf : c.wf) (hinv : DequeInv c d) (v : α)
    (hok : d.len = d.size → d.size * c.growth_factor ≤ c.lenMax) :
    (deque_insert_front c true d v).1 = true := by
  unfold deque_insert_front
  by_cases hfull : d.len = d.size
  · rw [if_pos (by simp [deque_full, hfull])]
    rcases hr : deque_resize c true d with ⟨b, d1⟩
    have hb : b = true := by
      have hs := deque_resize_succeeds hwf (hok hfull) (q := d)
      rw [hr] at hs
      exact hs
    subst hb
    simp
  · rw [if_neg (by simp [deque_full, hfull])]

theorem deque_insert_front_false {α : Type} [Inhabited α] {c : Cfg} {ok : Bool}
    {d d' : DequeS α} {v : α}
    (h : deque_insert_front c ok d v = (false, d')) : d' = d := by
  unfold deque_insert_front at h
  by_cases hfull : d.len = d.size
  · rw [if_pos (by simp [deque_full, hfull])] at h
    rcases hr : deque_resize c ok d with ⟨b, d1⟩
    rw [hr] at h
    cases b
    · rcases deque_resize_cases c ok d with hc | hc
      · rw [hr] at hc
        simp only [Prod.mk.injEq] at h hc
        rw [h.2.symm, hc.2]
      · rw [hr] at hc
        simp at hc
    · exact absurd h (by simp)
  · rw [if_neg (by simp [deque_full, hfull])] at h
    exact absurd h (by simp)

theorem deque_insert_front_inv {α : Type} [Inhabited α] {c : Cfg}
    {d : DequeS α} (hwf : c.wf) (hinv : DequeInv c d) (ok : Bool) (v : α) :
    DequeInv c (deque_insert_front c ok d v).2 := by
  rcases he : deque_insert_front c ok d v with ⟨b, d'⟩
  cases b
  · rw [deque_insert_front_false he]
    exact hinv
  · exact (deque_insert_front_true_char hwf hinv he).2.1

theorem deque_peek_front_eq {α : Type} [Inhabited α] {c : Cfg} {d : DequeS α}
    (hinv : DequeInv c d) (hne : 0 < d.len) :
    deque_peek_front d = d.seq.getD 0 default := by
  unfold deque_peek_front DequeS.seq
  rw [getD_map_range _ hne]
  rw [mask_eq_mod hinv.size_pow, Nat.add_zero,
    Nat.mod_eq_of_lt hinv.front_lt]

theorem deque_peek_back_eq {α : Type} [Inhabited α] {c : Cfg} {d : DequeS α}
    (hinv : DequeInv c d) (hne : 0 < d.len) :
    deque_peek_back d = d.seq.getD (d.len - 1) default := by
  unfold deque_peek_back DequeS.seq
  rw [getD_map_range _ (by omega)]
  rw [show d.front + (d.len - 1) = d.front + d.len - 1 by omega]

theorem deque_step_inv {α : Type} [Inhabited α] {c : Cfg} {d : DequeS α}
    (hwf : c.wf) (hinv : DequeInv c d) (op : DequeOp α) :
    DequeInv c (deque_step c d op) := by
  cases op with
  | op_init => exact deque_init_inv hwf hinv.inline_len
  | op_resize ok => exact deque_resize_inv hwf hinv ok
  | op_clear => exact deque_clear_inv hinv
  | op_delete => exact deque_delete_inv hwf hinv
  | op_insert_front ok v => exact deque_insert_front_inv hwf hinv ok v
  | op_insert_back ok v => exact deque_insert_back_inv hwf hinv ok v
  | op_remove_front => exact deque_remove_front_inv hwf hinv
  | op_remove_back => exact deque_remove_back_inv hinv
  | op_peek_front => exact hinv
  | op_peek_back => exact hinv

theorem deque_run_inv {α : Type} [Inhabited α] {c : Cfg} {d : DequeS α}
    (hwf : c.wf) (hinv : DequeInv c d) (ops : List (DequeOp α)) :
    DequeInv c (deque_run c d ops) :=
  foldl_preserve (DequeInv c) _ (fun t op ht => deque_step_inv hwf ht op)
    ops d hinv

/-- C3: for every container (Stack, Queue, Deque), resize fails by
returning false whenever the new capacity `capacity * growth_factor` would
exceed the maximum representable value of the length type, with the check
performed as `capacity > MAX / growth_factor` before any product is
computed (the two conditions are equivalent in exact arithmetic, so no
wraparound occurs), and capacity, length, start index and contents are all
unchanged on this failure. -/
theorem C3_resize_overflow_check {c : Cfg} (hwf : c.wf) :
    (∀ sz : Nat, c.lenMax / c.growth_factor < sz ↔
      c.lenMax < sz * c.growth_factor) ∧
    (∀ (α : Type) [Inhabited α] (s : StackS α) (ok : Bool),
      c.lenMax < s.size * c.growth_factor → stack_resize c ok s = (false, s)) ∧
    (∀ (α : Type) [Inhabited α] (q : QueueS α) (ok : Bool),
      c.lenMax < q.size * c.growth_factor → queue_resize c ok q = (false, q)) ∧
    (∀ (α : Type) [Inhabited α] (d : DequeS α) (ok : Bool),
      c.lenMax < d.size * c.growth_factor → deque_resize c ok d = (false, d)) := by
  refine ⟨fun sz => Cfg.guard_iff hwf sz, ?_, ?_, ?_⟩
  · intro α _ s ok hov
    exact stack_resize_guard_fail c ok s ((Cfg.guard_iff hwf _).mpr hov)
  · intro α _ q ok hov
    exact queue_resize_guard_fail c ok q ((Cfg.guard_iff hwf _).mpr hov)
  · intro α _ d ok hov
    exact deque_resize_guard_fail c ok d ((Cfg.guard_iff hwf _).mpr hov)

/-- Witness for C3 at the concrete configuration `init_size 4`,
`growth_factor 2`, 8-bit length type, and a stack of capacity 128 (one
factor below the type maximum 255). -/
theorem C3_resize_overflow_check_witness :
    stack_resize (⟨4, 2, 8⟩ : Cfg) true
        (⟨List.replicate 4 0, [], false, 0, 128⟩ : StackS Nat) =
      (false, (⟨List.replicate 4 0, [], false, 0, 128⟩ : StackS Nat)) ∧
    ((⟨4, 2, 8⟩ : Cfg).lenMax / 2 < 128 ↔ (⟨4, 2, 8⟩ : Cfg).lenMax < 128 * 2) := by
  have hwf : (⟨4, 2, 8⟩ : Cfg).wf :=
    ⟨by norm_num, by norm_num, ⟨2, rfl⟩, by norm_num, by norm_num, ⟨1, rfl⟩,
      by norm_num⟩
  exact ⟨(C3_resize_overflow_check hwf).2.1 Nat _ true (by decide),
    (C3_resize_overflow_check hwf).1 128⟩

/-- C4: if the allocator fails during growth, resize returns false and the
container is left entirely unmodified, and the triggering mutation (push,
enqueue, insert_front, insert_back) on a full container also returns false
with no state change. -/
theorem C4_alloc_failure_frame (c : Cfg) (α : Type) [Inhabited α] :
    (∀ s : StackS α, stack_resize c false s = (false, s)) ∧
    (∀ q : QueueS α, queue_resize c false q = (false, q)) ∧
    (∀ d : DequeS α, deque_resize c false d = (false, d)) ∧
    (∀ (s : StackS α) (v : α), s.len = s.size →
      stack_push c false s v = (false, s)) ∧
    (∀ (q : QueueS α) (v : α), q.len = q.size →
      queue_enque c false q v = (false, q)) ∧
    (∀ (d : DequeS α) (v : α), d.len = d.size →
      deque_insert_front c false d v = (false, d)) ∧
    (∀ (d : DequeS α) (v : α), d.len = d.size →
      deque_insert_back c false d v = (false, d)) := by
  refine ⟨stack_resize_alloc_fail c, queue_resize_alloc_fail c,
    deque_resize_alloc_fail c, ?_, ?_, ?_, ?_⟩
  · intro s v hfull
    unfold stack_push
    rw [if_pos (by simp [stack_full, hfull]), stack_resize_alloc_fail]
  · intro q v hfull
    unfold queue_enque
    rw [if_pos (by simp [queue_full, hfull]), queue_resize_alloc_fail]
  · intro d v hfull
    unfold deque_insert_front
    rw [if_pos (by simp [deque_full, hfull]), deque_resize_alloc_fail]
  · intro d v hfull
    unfold deque_insert_back
    rw [if_pos (by simp [deque_full, hfull]), deque_resize_alloc_fail]

/-- Witness for C4: a full inline stack and queue whose push and enqueue
fail without side effects when the allocator fails. -/
theorem C4_alloc_failure_frame_witness :
    stack_push (⟨4, 2, 8⟩ : Cfg) false
        (⟨[1, 2, 3, 4], [], false, 4, 4⟩ : StackS Nat) 5 =
      (false, (⟨[1, 2, 3, 4], [], false, 4, 4⟩ : StackS Nat)) ∧
    queue_enque (⟨4, 2, 8⟩ : Cfg) false
        (⟨[1, 2, 3, 4], [], false, 0, 4, 4⟩ : QueueS Nat) 5 =
      (false, (⟨[1, 2, 3, 4], [], false, 0, 4, 4⟩ : QueueS Nat)) :=
  ⟨(C4_alloc_failure_frame (⟨4, 2, 8⟩ : Cfg) Nat).2.2.2.1 _ 5 rfl,
    (C4_alloc_failure_frame (⟨4, 2, 8⟩ : Cfg) Nat).2.2.2.2.1 _ 5 rfl⟩

/-- C9: pop (Stack), dequeue (Queue), and remove_front/remove_back (Deque)
on an empty container return false and leave the state unchanged; on a
non-empty container they return true. -/
theorem C9_remove_from_empty (α : Type) (s : StackS α) (q : QueueS α)
    (d : DequeS α) :
    (s.len = 0 → stack_pop s = (false, s)) ∧
    (s.len ≠ 0 → (stack_pop s).1 = true) ∧
    (q.len = 0 → queue_deque q = (false, q)) ∧
    (q.len ≠ 0 → (queue_deque q).1 = true) ∧
    (d.len = 0 → deque_remove_front d = (false, d) ∧
      deque_remove_back d = (false, d)) ∧
    (d.len ≠ 0 → (deque_remove_front d).1 = true ∧
      (deque_remove_back d).1 = true) := by
  refine ⟨?_, ?_, ?_, ?_, ?_, ?_⟩
  · intro h
    simp [stack_pop, stack_empty, h]
  · intro h
    simp [stack_pop, stack_empty, h]
  · intro h
    simp [queue_deque, queue_empty, h]
  · intro h
    simp [queue_deque, queue_empty, h]
  · intro h
    constructor
    · simp [deque_remove_front, deque_empty, h]
    · simp [deque_remove_back, deque_empty, h]
  · intro h
    constructor
    · simp [deque_remove_front, deque_empty, h]
    · simp [deque_remove_back, deque_empty, h]

/-- Witness for C9: the empty and a one-element stack and deque. -/
theorem C9_remove_from_empty_witness :
    stack_pop (⟨[0, 0], [], false, 0, 2⟩ : StackS Nat) =
      (false, (⟨[0, 0], [], false, 0, 2⟩ : StackS Nat)) ∧
    (deque_remove_front (⟨[7, 0], [], false, 0, 1, 2⟩ : DequeS Nat)).1 = true :=
  ⟨(C9_remove_from_empty Nat ⟨[0, 0], [], false, 0, 2⟩
      ⟨[0, 0], [], false, 0, 0, 2⟩ ⟨[0, 0], [], false, 0, 0, 2⟩).1 rfl,
    ((C9_remove_from_empty Nat ⟨[0, 0], [], false, 0, 2⟩
      ⟨[0, 0], [], false, 0, 0, 2⟩ ⟨[7, 0], [], false, 0, 1, 2⟩).2.2.2.2.2
      (by decide)).1⟩

/-- C10: the Deque clear macro only sets `len` to 0 and leaves `front`,
capacity and the active buffer unchanged, unlike the Queue clear, which
resets both `len` and the start index; the Deque front is reset to 0 by
delete, not by clear. -/
theorem C10_deque_clear_frame (α : Type) (c : Cfg) (d : DequeS α)
    (q : QueueS α) :
    deque_clear d = { d with len := 0 } ∧
    (deque_clear d).front = d.front ∧
    (deque_clear d).size = d.size ∧
    (deque_clear d).in_heap = d.in_heap ∧
    (deque_clear d).inline_buffer = d.inline_buffer ∧
    (deque_clear d).heap_buffer = d.heap_buffer ∧
    (deque_clear d).len = 0 ∧
    queue_clear q = { q with len := 0, head := 0 } ∧
    (deque_delete c d).front = 0 := by
  refine ⟨rfl, rfl, rfl, rfl, rfl, rfl, rfl, rfl, ?_⟩
  unfold deque_delete deque_clear
  by_cases h : d.in_heap = true <;> simp [h]

/-- C6: after delete, whether or not the container previously grew onto
the heap, length is 0, capacity equals the initial capacity, the active
buffer is the inline buffer again, and for Queue/Deque the start index
(front) is 0. -/
theorem C6_delete_resets (α : Type) {c : Cfg} (hwf : c.wf) :
    (∀ s : StackS α, StackInv c s →
      (stack_delete c s).len = 0 ∧ (stack_delete c s).size = c.init_size ∧
      (stack_delete c s).in_heap = false) ∧
    (∀ q : QueueS α, QueueInv c q →
      (queue_delete c q).len = 0 ∧ (queue_delete c q).size = c.init_size ∧
      (queue_delete c q).in_heap = false ∧ (queue_delete c q).head = 0) ∧
    (∀ d : DequeS α, DequeInv c d →
      (deque_delete c d).len = 0 ∧ (deque_delete c d).size = c.init_size ∧
      (deque_delete c d).in_heap = false ∧ (deque_delete c d).front = 0) := by
  refine ⟨?_, ?_, ?_⟩
  · intro s hinv
    unfold stack_delete stack_clear
    by_cases h : s.in_heap = true
    · simp [h]
    · have h' : s.in_heap = false := by
        cases hq : s.in_heap
        · rfl
        · exact absurd hq h
      simp [h']
      exact hinv.inline_size h'
  · intro q hinv
    unfold queue_delete queue_clear
    by_cases h : q.in_heap = true
    · simp [h]
    · have h' : q.in_heap = false := by
        cases hq : q.in_heap
        · rfl
        · exact absurd hq h
      simp [h']
      exact hinv.inline_size h'
  · intro d hinv
    unfold deque_delete deque_clear
    by_cases h : d.in_heap = true
    · simp [h]
    · have h' : d.in_heap = false := by
        cases hq : d.in_heap
        · rfl
        · exact absurd hq h
      simp [h']
      exact hinv.inline_size h'

/-- Witness for C6: a queue that has grown onto the heap (capacity 8)
returns to the inline buffer with the initial capacity 4 after delete. -/
theorem C6_delete_resets_witness :
    (queue_delete (⟨4, 2, 8⟩ : Cfg)
        (⟨List.replicate 4 0, [2, 3, 4, 5, 6, 0, 0, 0], true, 0, 5, 8⟩
          : QueueS Nat)).len = 0 ∧
    (queue_delete (⟨4, 2, 8⟩ : Cfg)
        (⟨List.replicate 4 0, [2, 3, 4, 5, 6, 0, 0, 0], true, 0, 5, 8⟩
          : QueueS Nat)).size = 4 ∧
    (queue_delete (⟨4, 2, 8⟩ : Cfg)
        (⟨List.replicate 4 0, [2, 3, 4, 5, 6, 0, 0, 0], true, 0, 5, 8⟩
          : QueueS Nat)).in_heap = false :=
  have hwf : (⟨4, 2, 8⟩ : Cfg).wf :=
    ⟨by norm_num, by norm_num, ⟨2, rfl⟩, by norm_num, by norm_num, ⟨1, rfl⟩,
      by norm_num⟩
  have h := (C6_delete_resets Nat hwf).2.1
    ⟨List.replicate 4 0, [2, 3, 4, 5, 6, 0, 0, 0], true, 0, 5, 8⟩
    ⟨⟨3, rfl⟩, by decide, by decide, by decide, by decide, by decide,
      fun _ => by decide, fun hc => nomatch hc⟩
  ⟨h.1, h.2.1, h.2.2.1⟩

/-- C1: for Queue and Deque, a growth triggered on a full container —
including wrapped states with a nonzero start index — preserves the exact
logical element order (the sequence read at
`buffer[(start_index + i) AND (capacity - 1)]` for `i < length` is the
same before and after), and the spec's concrete scenario (InitCapacity 4,
GrowthFactor 2: enqueue 1,2,3,4; dequeue; enqueue 5; enqueue 6) ends with
logical sequence [2,3,4,5,6], capacity 8, and start index 0. -/
theorem C1_growth_preserves_order :
    (∀ (α : Type) [Inhabited α] (c : Cfg) (q : QueueS α), c.wf →
      QueueInv c q → q.len = q.size → q.size * c.growth_factor ≤ c.lenMax →
      (queue_resize c true q).1 = true ∧
      (queue_resize c true q).2.seq = q.seq) ∧
    (∀ (α : Type) [Inhabited α] (c : Cfg) (d : DequeS α), c.wf →
      DequeInv c d → d.len = d.size → d.size * c.growth_factor ≤ c.lenMax →
      (deque_resize c true d).1 = true ∧
      (deque_resize c true d).2.seq = d.seq) ∧
    ((queue_run (⟨4, 2, 8⟩ : Cfg)
        (⟨List.replicate 4 0, [], false, 0, 0, 0⟩ : QueueS Nat)
        [QueueOp.op_init, .op_enque true 1, .op_enque true 2, .op_enque true 3,
         .op_enque true 4, .op_deque, .op_enque true 5,
         .op_enque true 6]).seq = [2, 3, 4, 5, 6] ∧
      (queue_run (⟨4, 2, 8⟩ : Cfg)
        (⟨List.replicate 4 0, [], false, 0, 0, 0⟩ : QueueS Nat)
        [QueueOp.op_init, .op_enque true 1, .op_enque true 2, .op_enque true 3,
         .op_enque true 4, .op_deque, .op_enque true 5,
         .op_enque true 6]).size = 8 ∧
      (queue_run (⟨4, 2, 8⟩ : Cfg)
        (⟨List.replicate 4 0, [], false, 0, 0, 0⟩ : QueueS Nat)
        [QueueOp.op_init, .op_enque true 1, .op_enque true 2, .op_enque true 3,
         .op_enque true 4, .op_deque, .op_enque true 5,
         .op_enque true 6]).head = 0) := by
  refine ⟨?_, ?_, by decide, by decide, by decide⟩
  · intro α _ c q hwf hinv hfull hng
    have h1 := queue_resize_succeeds hwf hng (q := q)
    refine ⟨h1, ?_⟩
    rcases hr : queue_resize c true q with ⟨b, q'⟩
    rw [hr] at h1
    simp only at h1
    subst h1
    have hchar := queue_resize_true_char hwf hinv hr
    apply hchar.2.2.2.2.2.2.2.2.2
    by_cases hnw : q.head + q.len ≤ q.size
    · right
      right
      have := hinv.head_lt
      omega
    · left
      exact hnw
  · intro α _ c d hwf hinv hfull hng
    have h1 := deque_resize_succeeds hwf hng (q := d)
    refine ⟨h1, ?_⟩
    rcases hr : deque_resize c true d with ⟨b, d'⟩
    rw [hr] at h1
    simp only at h1
    subst h1
    have hchar := deque_resize_true_char hwf hinv hr
    apply hchar.2.2.2.2.2.2.2.2.2
    by_cases hnw : d.front + d.len ≤ d.size
    · right
      right
      have := hinv.front_lt
      omega
    · left
      exact hnw

/-- Witness for C1: growing a concrete full, wrapped inline queue
(contents 5,2,3,4 with start index 1, logical order 2,3,4,5). -/
theorem C1_growth_preserves_order_witness :
    (queue_resize (⟨4, 2, 8⟩ : Cfg) true
      (⟨[5, 2, 3, 4], [], false, 1, 4, 4⟩ : QueueS Nat)).1 = true ∧
    (queue_resize (⟨4, 2, 8⟩ : Cfg) true
      (⟨[5, 2, 3, 4], [], false, 1, 4, 4⟩ : QueueS Nat)).2.seq =
      QueueS.seq (⟨[5, 2, 3, 4], [], false, 1, 4, 4⟩ : QueueS Nat) :=
  C1_growth_preserves_order.1 Nat (⟨4, 2, 8⟩ : Cfg)
    ⟨[5, 2, 3, 4], [], false, 1, 4, 4⟩
    ⟨by norm_num, by norm_num, ⟨2, rfl⟩, by norm_num, by norm_num, ⟨1, rfl⟩,
      by norm_num⟩
    ⟨⟨2, rfl⟩, by decide, by decide, by decide, by decide, by decide,
      (fun hc => nomatch hc), fun _ => rfl⟩
    rfl (by decide)

/-- Counterexample to C2: the reachable inline, not-wrapped queue with
start index 1 (enqueue 9,1,2,3 then dequeue once; contents 9,1,2,3 with
head 1, logical order 1,2,3).  Resize succeeds, but the start index stays
1 instead of moving to 0, and the logical sequence changes (the code
copies `len` slots from buffer index 0, not from the start index). -/
theorem C2_counterexample_inline_flat :
    (queue_resize (⟨4, 2, 8⟩ : Cfg) true
      (queue_run (⟨4, 2, 8⟩ : Cfg)
        (⟨List.replicate 4 0, [], false, 0, 0, 0⟩ : QueueS Nat)
        [QueueOp.op_init, .op_enque true 9, .op_enque true 1,
         .op_enque true 2, .op_enque true 3, .op_deque])).1 = true ∧
    (queue_resize (⟨4, 2, 8⟩ : Cfg) true
      (queue_run (⟨4, 2, 8⟩ : Cfg)
        (⟨List.replicate 4 0, [], false, 0, 0, 0⟩ : QueueS Nat)
        [QueueOp.op_init, .op_enque true 9, .op_enque true 1,
         .op_enque true 2, .op_enque true 3, .op_deque])).2.head = 1 ∧
    ¬ ((queue_resize (⟨4, 2, 8⟩ : Cfg) true
      (queue_run (⟨4, 2, 8⟩ : Cfg)
        (⟨List.replicate 4 0, [], false, 0, 0, 0⟩ : QueueS Nat)
        [QueueOp.op_init, .op_enque true 9, .op_enque true 1,
         .op_enque true 2, .op_enque true 3, .op_deque])).2.seq =
      (queue_run (⟨4, 2, 8⟩ : Cfg)
        (⟨List.replicate 4 0, [], false, 0, 0, 0⟩ : QueueS Nat)
        [QueueOp.op_init, .op_enque true 9, .op_enque true 1,
         .op_enque true 2, .op_enque true 3, .op_deque]).seq) := by
  refine ⟨by decide, by decide, by decide⟩

/-- C2 (amended): for every Queue and Deque state whose active buffer is
the inline buffer and whose sequence is not wrapped, a successful resize
allocates a new heap buffer, copies the first `length` slots of the buffer
starting at buffer index 0 (not the run starting at the start index), and
leaves the start index unchanged (it is not reset to 0); the logical
sequence is therefore preserved when the start index is 0 — which always
holds when the container is full — but not for a nonzero start index. -/
theorem C2_amended_inline_flat_resize :
    (∀ (α : Type) [Inhabited α] (c : Cfg) (q : QueueS α), c.wf →
      QueueInv c q → q.in_heap = false → q.head + q.len ≤ q.size →
      q.size * c.growth_factor ≤ c.lenMax →
      (queue_resize c true q).1 = true ∧
      (queue_resize c true q).2.in_heap = true ∧
      (queue_resize c true q).2.head = q.head ∧
      (queue_resize c true q).2.values =
        q.values.take q.len ++
          List.replicate (q.size * c.growth_factor - q.len) default ∧
      (q.head = 0 → (queue_resize c true q).2.seq = q.seq)) ∧
    (∀ (α : Type) [Inhabited α] (c : Cfg) (d : DequeS α), c.wf →
      DequeInv c d → d.in_heap = false → d.front + d.len ≤ d.size →
      d.size * c.growth_factor ≤ c.lenMax →
      (deque_resize c true d).1 = true ∧
      (deque_resize c true d).2.in_heap = true ∧
      (deque_resize c true d).2.front = d.front ∧
      (deque_resize c true d).2.values =
        d.values.take d.len ++
          List.replicate (d.size * c.growth_factor - d.len) default ∧
      (d.front = 0 → (deque_resize c true d).2.seq = d.seq)) := by
  constructor
  · intro α _ c q hwf hinv hh hnw hng
    have hg : ¬ c.lenMax / c.growth_factor < q.size := by
      rw [Cfg.guard_iff hwf]
      omega
    rw [queue_resize_eq_inline_flat hg hnw hh]
    refine ⟨rfl, rfl, rfl, ?_, ?_⟩
    · show memCopy (List.replicate (q.size * c.growth_factor % 2 ^ c.w)
          default) 0 (q.values.take q.len) = _
      rw [memCopy_zero, Cfg.new_size_eq hwf hng, List.length_take,
        Nat.min_eq_left (by rw [queue_values_len hinv]; exact hinv.len_le)]
    · intro h0
      exact queue_seq_inline_flat0 hwf hinv h0 hng
  · intro α _ c d hwf hinv hh hnw hng
    have hg : ¬ c.lenMax / c.growth_factor < d.size := by
      rw [Cfg.guard_iff hwf]
      omega
    rw [deque_resize_eq_inline_flat hg hnw hh]
    refine ⟨rfl, rfl, rfl, ?_, ?_⟩
    · show memCopy (List.replicate (d.size * c.growth_factor % 2 ^ c.w)
          default) 0 (d.values.take d.len) = _
      rw [memCopy_zero, Cfg.new_size_eq hwf hng, List.length_take,
        Nat.min_eq_left (by rw [deque_values_len hinv]; exact hinv.len_le)]
    · intro h0
      exact deque_seq_inline_flat0 hwf hinv h0 hng

/-- Witness for the amended C2: a concrete full inline queue with start
index 0; the resize copies the four elements to the front of the new heap
buffer and preserves the logical sequence. -/
theorem C2_amended_inline_flat_resize_witness :
    (queue_resize (⟨4, 2, 8⟩ : Cfg) true
      (⟨[1, 2, 3, 4], [], false, 0, 4, 4⟩ : QueueS Nat)).1 = true ∧
    (queue_resize (⟨4, 2, 8⟩ : Cfg) true
      (⟨[1, 2, 3, 4], [], false, 0, 4, 4⟩ : QueueS Nat)).2.in_heap = true ∧
    (queue_resize (⟨4, 2, 8⟩ : Cfg) true
      (⟨[1, 2, 3, 4], [], false, 0, 4, 4⟩ : QueueS Nat)).2.head = 0 ∧
    (queue_resize (⟨4, 2, 8⟩ : Cfg) true
      (⟨[1, 2, 3, 4], [], false, 0, 4, 4⟩ : QueueS Nat)).2.values =
      ([1, 2, 3, 4] : List Nat).take 4 ++ List.replicate (4 * 2 - 4) 0 ∧
    ((0 : Nat) = 0 → (queue_resize (⟨4, 2, 8⟩ : Cfg) true
      (⟨[1, 2, 3, 4], [], false, 0, 4, 4⟩ : QueueS Nat)).2.seq =
      QueueS.seq (⟨[1, 2, 3, 4], [], false, 0, 4, 4⟩ : QueueS Nat)) :=
  C2_amended_inline_flat_resize.1 Nat (⟨4, 2, 8⟩ : Cfg)
    ⟨[1, 2, 3, 4], [], false, 0, 4, 4⟩
    ⟨by norm_num, by norm_num, ⟨2, rfl⟩, by norm_num, by norm_num, ⟨1, rfl⟩,
      by norm_num⟩
    ⟨⟨2, rfl⟩, by decide, by decide, by decide, by decide, by decide,
      (fun hc => nomatch hc), fun _ => rfl⟩
    rfl (by decide) (by decide)

/-- C5: for every container reachable from the freshly initialized state
by any sequence of public operations, the invariants hold: capacity is a
power of two with InitCapacity <= capacity <= the length type's maximum,
length <= capacity, and for Queue/Deque the start index (front) is below
capacity. -/
theorem C5_reachable_invariants (α : Type) [Inhabited α] {c : Cfg}
    (hwf : c.wf) :
    (∀ (s0 : StackS α) (ops : List (StackOp α)),
      s0.inline_buffer.length = c.init_size →
      (∃ k, (stack_run c (stack_init c s0) ops).size = 2 ^ k) ∧
      c.init_size ≤ (stack_run c (stack_init c s0) ops).size ∧
      (stack_run c (stack_init c s0) ops).size ≤ c.lenMax ∧
      (stack_run c (stack_init c s0) ops).len ≤
        (stack_run c (stack_init c s0) ops).size) ∧
    (∀ (q0 : QueueS α) (ops : List (QueueOp α)),
      q0.inline_buffer.length = c.init_size →
      (∃ k, (queue_run c (queue_init c q0) ops).size = 2 ^ k) ∧
      c.init_size ≤ (queue_run c (queue_init c q0) ops).size ∧
      (queue_run c (queue_init c q0) ops).size ≤ c.lenMax ∧
      (queue_run c (queue_init c q0) ops).len ≤
        (queue_run c (queue_init c q0) ops).size ∧
      (queue_run c (queue_init c q0) ops).head <
        (queue_run c (queue_init c q0) ops).size) ∧
    (∀ (d0 : DequeS α) (ops : List (DequeOp α)),
      d0.inline_buffer.length = c.init_size →
      (∃ k, (deque_run c (deque_init c d0) ops).size = 2 ^ k) ∧
      c.init_size ≤ (deque_run c (deque_init c d0) ops).size ∧
      (deque_run c (deque_init c d0) ops).size ≤ c.lenMax ∧
      (deque_run c (deque_init c d0) ops).len ≤
        (deque_run c (deque_init c d0) ops).size ∧
      (deque_run c (deque_init c d0) ops).front <
        (deque_run c (deque_init c d0) ops).size) := by
  refine ⟨?_, ?_, ?_⟩
  · intro s0 ops h0
    have h := stack_run_inv hwf (stack_init_inv hwf h0) ops
    exact ⟨h.size_pow, h.size_lb, h.size_ub, h.len_le⟩
  · intro q0 ops h0
    have h := queue_run_inv hwf (queue_init_inv hwf h0) ops
    exact ⟨h.size_pow, h.size_lb, h.size_ub, h.len_le, h.head_lt⟩
  · intro d0 ops h0
    have h := deque_run_inv hwf (deque_init_inv hwf h0) ops
    exact ⟨h.size_pow, h.size_lb, h.size_ub, h.len_le, h.front_lt⟩

/-- Witness for C5: a queue run that grows, reverses, dequeues and
deletes satisfies the invariant conclusions. -/
theorem C5_reachable_invariants_witness :
    (∃ k, (queue_run (⟨4, 2, 8⟩ : Cfg)
      (queue_init (⟨4, 2, 8⟩ : Cfg)
        (⟨List.replicate 4 0, [], false, 0, 0, 0⟩ : QueueS Nat))
      [QueueOp.op_enque true 1, .op_enque true 2, .op_enque true 3,
       .op_enque true 4, .op_deque, .op_enque true 5, .op_enque true 6,
       .op_reverse, .op_deque, .op_resize true, .op_delete]).size = 2 ^ k) ∧
    4 ≤ (queue_run (⟨4, 2, 8⟩ : Cfg)
      (queue_init (⟨4, 2, 8⟩ : Cfg)
        (⟨List.replicate 4 0, [], false, 0, 0, 0⟩ : QueueS Nat))
      [QueueOp.op_enque true 1, .op_enque true 2, .op_enque true 3,
       .op_enque true 4, .op_deque, .op_enque true 5, .op_enque true 6,
       .op_reverse, .op_deque, .op_resize true, .op_delete]).size ∧
    (queue_run (⟨4, 2, 8⟩ : Cfg)
      (queue_init (⟨4, 2, 8⟩ : Cfg)
        (⟨List.replicate 4 0, [], false, 0, 0, 0⟩ : QueueS Nat))
      [QueueOp.op_enque true 1, .op_enque true 2, .op_enque true 3,
       .op_enque true 4, .op_deque, .op_enque true 5, .op_enque true 6,
       .op_reverse, .op_deque, .op_resize true, .op_delete]).size ≤
      (⟨4, 2, 8⟩ : Cfg).lenMax ∧
    (queue_run (⟨4, 2, 8⟩ : Cfg)
      (queue_init (⟨4, 2, 8⟩ : Cfg)
        (⟨List.replicate 4 0, [], false, 0, 0, 0⟩ : QueueS Nat))
      [QueueOp.op_enque true 1, .op_enque true 2, .op_enque true 3,
       .op_enque true 4, .op_deque, .op_enque true 5, .op_enque true 6,
       .op_reverse, .op_deque, .op_resize true, .op_delete]).len ≤
      (queue_run (⟨4, 2, 8⟩ : Cfg)
        (queue_init (⟨4, 2, 8⟩ : Cfg)
          (⟨List.replicate 4 0, [], false, 0, 0, 0⟩ : QueueS Nat))
        [QueueOp.op_enque true 1, .op_enque true 2, .op_enque true 3,
         .op_enque true 4, .op_deque, .op_enque true 5, .op_enque true 6,
         .op_reverse, .op_deque, .op_resize true, .op_delete]).size ∧
    (queue_run (⟨4, 2, 8⟩ : Cfg)
      (queue_init (⟨4, 2, 8⟩ : Cfg)
        (⟨List.replicate 4 0, [], false, 0, 0, 0⟩ : QueueS Nat))
      [QueueOp.op_enque true 1, .op_enque true 2, .op_enque true 3,
       .op_enque true 4, .op_deque, .op_enque true 5, .op_enque true 6,
       .op_reverse, .op_deque, .op_resize true, .op_delete]).head <
      (queue_run (⟨4, 2, 8⟩ : Cfg)
        (queue_init (⟨4, 2, 8⟩ : Cfg)
          (⟨List.replicate 4 0, [], false, 0, 0, 0⟩ : QueueS Nat))
        [QueueOp.op_enque true 1, .op_enque true 2, .op_enque true 3,
         .op_enque true 4, .op_deque, .op_enque true 5, .op_enque true 6,
         .op_reverse, .op_deque, .op_resize true, .op_delete]).size :=
  (C5_reachable_invariants Nat
    (⟨by norm_num, by norm_num, ⟨2, rfl⟩, by norm_num, by norm_num, ⟨1, rfl⟩,
      by norm_num⟩ : Cfg.wf ⟨4, 2, 8⟩)).2.1
    ⟨List.replicate 4 0, [], false, 0, 0, 0⟩ _ (by decide)

/-- C8: pushing values v1..vn in order (all pushes succeeding) and then
performing n peek-then-pop rounds observes vn, ..., v1, with peek reading
`buffer[length - 1]` and pop only decrementing `length`. -/
theorem C8_stack_lifo :
    (∀ (α : Type) [Inhabited α] (c : Cfg) (s s' : StackS α)
      (l : List (Bool × α)), c.wf → StackInv c s →
      stack_pushAll c s l = some s' →
      stack_observe l.length s' = (l.map Prod.snd).reverse) ∧
    (∀ (α : Type) [Inhabited α] (t : StackS α),
      stack_peek t = t.values.getD (t.len - 1) default) ∧
    (∀ (α : Type) (t : StackS α), t.len ≠ 0 →
      stack_pop t = (true, { t with len := t.len - 1 })) := by
  refine ⟨?_, fun α _ t => rfl, ?_⟩
  · intro α _ c s s' l hwf hinv hpush
    obtain ⟨hinv', hseq', hlen'⟩ := stack_pushAll_char l s s' hwf hinv hpush
    have h := stack_observe_eq (c := c) (l.map Prod.snd) s.seq s' hinv' hseq'
    rw [List.length_map] at h
    exact h
  · intro α t h
    unfold stack_pop stack_empty
    rw [if_neg (by simp [h])]

/-- Witness for C8: pushing 1,2,3,4,5 onto a fresh stack of inline
capacity 4 (the fifth push grows to the heap) and observing five
peek-then-pop rounds yields 5,4,3,2,1. -/
theorem C8_stack_lifo_witness :
    stack_observe 5
      (⟨[1, 2, 3, 4], [1, 2, 3, 4, 5, 0, 0, 0], true, 5, 8⟩ : StackS Nat) =
      [5, 4, 3, 2, 1] :=
  C8_stack_lifo.1 Nat (⟨4, 2, 8⟩ : Cfg)
    (stack_init (⟨4, 2, 8⟩ : Cfg) ⟨List.replicate 4 0, [], false, 0, 0⟩)
    ⟨[1, 2, 3, 4], [1, 2, 3, 4, 5, 0, 0, 0], true, 5, 8⟩
    [(true, 1), (true, 2), (true, 3), (true, 4), (true, 5)]
    ⟨by norm_num, by norm_num, ⟨2, rfl⟩, by norm_num, by norm_num, ⟨1, rfl⟩,
      by norm_num⟩
    (stack_init_inv
      (⟨by norm_num, by norm_num, ⟨2, rfl⟩, by norm_num, by norm_num,
        ⟨1, rfl⟩, by norm_num⟩ : Cfg.wf ⟨4, 2, 8⟩) rfl)
    rfl

/-- C7: on any valid empty deque, insert_front x, then insert_back y,
then insert_front z (all succeeding) yield the logical order z, x, y:
the logical sequence is [z, x, y], peek_front returns z and peek_back
returns y (the front decrement wraps through the AND mask). -/
theorem C7_deque_symmetry (α : Type) [Inhabited α] (c : Cfg) (d : DequeS α)
    (x y z : α) (hwf : c.wf) (hinv : DequeInv c d) (h0 : d.len = 0) :
    (deque_insert_front c true d x).1 = true ∧
    (deque_insert_back c true (deque_insert_front c true d x).2 y).1 = true ∧
    (deque_insert_front c true (deque_insert_back c true
      (deque_insert_front c true d x).2 y).2 z).1 = true ∧
    DequeS.seq (deque_insert_front c true (deque_insert_back c true
      (deque_insert_front c true d x).2 y).2 z).2 = [z, x, y] ∧
    deque_peek_front (deque_insert_front c true (deque_insert_back c true
      (deque_insert_front c true d x).2 y).2 z).2 = z ∧
    deque_peek_back (deque_insert_front c true (deque_insert_back c true
      (deque_insert_front c true d x).2 y).2 z).2 = y := by
  have hsz2 : 2 ≤ d.size := by
    have := hinv.size_lb
    have := hwf.1
    omega
  have hdnil : d.seq = [] := by
    simp [DequeS.seq, h0]
  have hs1 := deque_insert_front_succeeds hwf hinv x
    (fun hful => absurd hful (by omega))
  rcases h1 : deque_insert_front c true d x with ⟨b1, d1⟩
  rw [h1] at hs1
  simp only at hs1
  subst hs1
  obtain ⟨hseq1, hinv1, hlen1⟩ := deque_insert_front_true_char hwf hinv h1
  have hseq1' : d1.seq = [x] := by rw [hseq1, hdnil]
  have hlen1' : d1.len = 1 := by omega
  have hsz21 : 2 ≤ d1.size := by
    have := hinv1.size_lb
    have := hwf.1
    omega
  have hs2 := deque_insert_back_succeeds hwf hinv1 y
    (fun hful => absurd hful (by omega))
  rcases h2 : deque_insert_back c true d1 y with ⟨b2, d2⟩
  rw [h2] at hs2
  simp only at hs2
  subst hs2
  obtain ⟨hseq2, hinv2, hlen2⟩ := deque_insert_back_true_char hwf hinv1 h2
  have hseq2' : d2.seq = [x, y] := by
    rw [hseq2, hseq1']
    rfl
  have hlen2' : d2.len = 2 := by omega
  have hok3 : d2.len = d2.size → d2.size * c.growth_factor ≤ c.lenMax := by
    intro hful
    have hd2s : d2.size = 2 := by omega
    rw [hd2s]
    have hgf := hwf.2.2.2.2.1
    have hlm := Cfg.lenMax_ge hwf
    omega
  have hs3 := deque_insert_front_succeeds hwf hinv2 z hok3
  rcases h3 : deque_insert_front c true d2 z with ⟨b3, d3⟩
  rw [h3] at hs3
  simp only at hs3
  subst hs3
  obtain ⟨hseq3, hinv3, hlen3⟩ := deque_insert_front_true_char hwf hinv2 h3
  have hseq3' : d3.seq = [z, x, y] := by
    rw [hseq3, hseq2']
  have hlen3' : d3.len = 3 := by omega
  simp only [h1, h2, h3]
  refine ⟨trivial, trivial, trivial, hseq3', ?_, ?_⟩
  · rw [deque_peek_front_eq hinv3 (by omega), hseq3']
    rfl
  · rw [deque_peek_back_eq hinv3 (by omega), hseq3', hlen3']
    rfl

/-- Witness for C7: the empty deque of capacity 2 with front 1 — the
third insertion triggers a wrapped growth and the order z, x, y still
results, with peek_front z and peek_back y. -/
theorem C7_deque_symmetry_witness :
    (deque_insert_front (⟨2, 2, 8⟩ : Cfg) true
      (⟨[0, 0], [], false, 1, 0, 2⟩ : DequeS Nat) 10).1 = true ∧
    (deque_insert_back (⟨2, 2, 8⟩ : Cfg) true
      (deque_insert_front (⟨2, 2, 8⟩ : Cfg) true
        (⟨[0, 0], [], false, 1, 0, 2⟩ : DequeS Nat) 10).2 20).1 = true ∧
    (deque_insert_front (⟨2, 2, 8⟩ : Cfg) true
      (deque_insert_back (⟨2, 2, 8⟩ : Cfg) true
        (deque_insert_front (⟨2, 2, 8⟩ : Cfg) true
          (⟨[0, 0], [], false, 1, 0, 2⟩ : DequeS Nat) 10).2 20).2 30).1 =
      true ∧
    DequeS.seq (deque_insert_front (⟨2, 2, 8⟩ : Cfg) true
      (deque_insert_back (⟨2, 2, 8⟩ : Cfg) true
        (deque_insert_front (⟨2, 2, 8⟩ : Cfg) true
          (⟨[0, 0], [], false, 1, 0, 2⟩ : DequeS Nat) 10).2 20).2 30).2 =
      [30, 10, 20] ∧
    deque_peek_front (deque_insert_front (⟨2, 2, 8⟩ : Cfg) true
      (deque_insert_back (⟨2, 2, 8⟩ : Cfg) true
        (deque_insert_front (⟨2, 2, 8⟩ : Cfg) true
          (⟨[0, 0], [], false, 1, 0, 2⟩ : DequeS Nat) 10).2 20).2 30).2 =
      30 ∧
    deque_peek_back (deque_insert_front (⟨2, 2, 8⟩ : Cfg) true
      (deque_insert_back (⟨2, 2, 8⟩ : Cfg) true
        (deque_insert_front (⟨2, 2, 8⟩ : Cfg) true
          (⟨[0, 0], [], false, 1, 0, 2⟩ : DequeS Nat) 10).2 20).2 30).2 =
      20 :=
  C7_deque_symmetry Nat (⟨2, 2, 8⟩ : Cfg) ⟨[0, 0], [], false, 1, 0, 2⟩
    10 20 30
    ⟨by norm_num, by norm_num, ⟨1, rfl⟩, by norm_num, by norm_num, ⟨1, rfl⟩,
      by norm_num⟩
    ⟨⟨1, rfl⟩, by decide, by decide, by decide, by decide, by decide,
      (fun hc => nomatch hc), fun _ => rfl⟩
    rfl
